import Mathlib

/-!
# Scheduled-scaling API server: transition core

A shallow embedding of `cmd/api/main.go` (the manual cancel/revert transition
handlers, the batch orchestrator and the path splitter) together with the
status type of `pkg/apis/scaling/v1alpha1/types.go`.

Conventions of the embedding

* A Go `string` is a sequence of bytes; it is modelled as `List Nat` whose
  members are meant to be below 256.  String constants of the source are
  written `lit "..."`, the UTF-8 encoding of the literal.  `for ... range` over
  a string decodes UTF-8 and yields U+FFFD for a byte that starts no valid
  sequence; `string(rune)` encodes a rune.
* `runtime.DefaultUnstructuredConverter` is library code; its effect on the
  status is modelled on the six fields that `ScheduledScalingStatus` declares,
  and its effect on the other fields of the resource is a parameter.
* An HTTP response is its status code and the text given to `http.Error` or
  the document given to the JSON encoder.
* A Go `map[string]interface{}` is an association list read through `jget`
  (first binding wins) and written through `jset` (replace or append).
* The resource store (dynamic client and REST client) is external to the
  program; the handlers are functions of a `Store` record and thread the
  store state explicitly, returning the list of store calls they issued.
-/

namespace ScalingApi

set_option maxRecDepth 20000

/-! ## Strings -/

/-- Go `string`: a sequence of bytes. -/
abbrev GoString := List Nat

/-- The replacement character U+FFFD (`utf8.RuneError`). -/
def runeError : Nat := 0xFFFD

/-- The slash rune and byte. -/
def slash : Nat := 0x2F

/-- Go `string(rune)`: the UTF-8 encoding of a code point; code points that are
out of range or surrogates are encoded as U+FFFD. -/
def encodeRune (r : Nat) : GoString :=
  if r ≤ 0x7F then [r]
  else if r ≤ 0x7FF then [0xC0 + r / 64, 0x80 + r % 64]
  else if 0x10FFFF < r ∨ (0xD800 ≤ r ∧ r ≤ 0xDFFF) then [0xEF, 0xBF, 0xBD]
  else if r ≤ 0xFFFF then [0xE0 + r / 4096, 0x80 + r / 64 % 64, 0x80 + r % 64]
  else [0xF0 + r / 262144, 0x80 + r / 4096 % 64, 0x80 + r / 64 % 64, 0x80 + r % 64]

/-- Continuation byte test `locb <= b && b <= hicb`. -/
def isCont (b : Nat) : Bool := 0x80 ≤ b && b ≤ 0xBF

/-- One step of Go's `for _, char := range s` at a position whose byte is `b0`
and whose following bytes are `rest`: the decoded rune and the number of bytes
consumed.  An invalid or truncated sequence yields U+FFFD and consumes one
byte. -/
def decodeRune (b0 : Nat) (rest : List Nat) : Nat × Nat :=
  if b0 < 0x80 then (b0, 1)
  else if 0xC0 ≤ b0 ∧ b0 < 0xE0 then
    match rest with
    | b1 :: _ =>
      if isCont b1 then
        let r := (b0 % 32) * 64 + b1 % 64
        if 0x7F < r then (r, 2) else (runeError, 1)
      else (runeError, 1)
    | _ => (runeError, 1)
  else if 0xE0 ≤ b0 ∧ b0 < 0xF0 then
    match rest with
    | b1 :: b2 :: _ =>
      if isCont b1 && isCont b2 then
        let r := (b0 % 16) * 4096 + (b1 % 64) * 64 + b2 % 64
        if 0x7FF < r ∧ ¬ (0xD800 ≤ r ∧ r ≤ 0xDFFF) then (r, 3) else (runeError, 1)
      else (runeError, 1)
    | _ => (runeError, 1)
  else if 0xF0 ≤ b0 ∧ b0 < 0xF8 then
    match rest with
    | b1 :: b2 :: b3 :: _ =>
      if isCont b1 && isCont b2 && isCont b3 then
        let r := (b0 % 8) * 262144 + (b1 % 64) * 4096 + (b2 % 64) * 64 + b3 % 64
        if 0xFFFF < r ∧ r ≤ 0x10FFFF then (r, 4) else (runeError, 1)
      else (runeError, 1)
    | _ => (runeError, 1)
  else (runeError, 1)

/-- The runes visited by `for _, char := range s`.  The first argument is the
number of bytes still to skip because they belong to the rune decoded last. -/
def runesFrom : Nat → List Nat → List Nat
  | _, [] => []
  | 0, b :: bs => (decodeRune b bs).1 :: runesFrom ((decodeRune b bs).2 - 1) bs
  | k + 1, _ :: bs => runesFrom k bs

/-- The runes of a Go string in iteration order. -/
def runes (s : GoString) : List Nat := runesFrom 0 s

/-- A string constant of the source: the UTF-8 bytes of the literal. -/
def lit (s : String) : GoString := s.toList.flatMap (fun c => encodeRune c.toNat)

/-! ## splitPath -/

/-- Loop state of `splitPath`: the parts appended so far and the current run. -/
structure SplitState where
  parts : List GoString
  current : GoString

/-- Body of the loop of `splitPath` for one rune. -/
def splitStep (st : SplitState) (char : Nat) : SplitState :=
  if char = slash then
    if st.current ≠ [] then ⟨st.parts ++ [st.current], []⟩ else st
  else ⟨st.parts, st.current ++ encodeRune char⟩

/-- The final flush of `splitPath` after the loop. -/
def splitFinish (st : SplitState) : List GoString :=
  if st.current ≠ [] then st.parts ++ [st.current] else st.parts

/-- Embedding of `splitPath`. -/
def splitPath (path : GoString) : List GoString :=
  splitFinish ((runes path).foldl splitStep ⟨[], []⟩)

/-! ## Unstructured documents -/

/-- A decoded JSON value, as held in `map[string]interface{}` by the dynamic
client.  Numbers are the integers (`int64`) of the unstructured decoding. -/
inductive Json where
  | null
  | bool (b : Bool)
  | int (n : Int)
  | str (s : GoString)
  | arr (xs : List Json)
  | obj (kvs : List (GoString × Json))

/-- Go `map[string]interface{}`. -/
abbrev JMap := List (GoString × Json)

/-- Map read `m[k]` with its presence flag. -/
def jget : JMap → GoString → Option Json
  | [], _ => none
  | (k', v) :: rest, k => if k' = k then some v else jget rest k

/-- Map write `m[k] = v`. -/
def jset : JMap → GoString → Json → JMap
  | [], k, v => [(k, v)]
  | (k', v') :: rest, k, v => if k' = k then (k, v) :: rest else (k', v') :: jset rest k v

/-- The keys of a map. -/
def jkeys (m : JMap) : List GoString := m.map Prod.fst

/-! ## The typed status (`types.go`) and its conversion -/

/-- Embedding of `ScheduledScalingStatus`; `*int32` is an optional integer. -/
structure ScheduledScalingStatus where
  Phase : GoString
  AppliedAt : GoString
  RevertedAt : GoString
  OriginalMinReplicas : Option Int
  OriginalMaxReplicas : Option Int
  Message : GoString

/-- Embedding of `ScheduledScaling`; `rest` stands for the fields other than
`Status` (TypeMeta, ObjectMeta and Spec), whose conversion is a parameter. -/
structure ScheduledScaling (R : Type) where
  rest : R
  Status : ScheduledScalingStatus

/-- Conversion of the fields other than `Status`, and the effect of assigning
`Name`, `Namespace`, `APIVersion` and `Kind` on them. -/
structure Converter (R : Type) where
  fromRest : JMap → Except GoString R
  toRest : R → Except GoString JMap
  setIdentity : R → GoString → GoString → R

/-- Conversion `int64 → int32` of Go: wraps around modulo `2^32`. -/
def wrapInt32 (n : Int) : Int := (n + 2 ^ 31) % 2 ^ 32 - 2 ^ 31

/-- Go type name of a decoded value, as printed in conversion errors. -/
def goTypeName : Json → GoString
  | .null => lit "nil"
  | .bool _ => lit "bool"
  | .int _ => lit "int64"
  | .str _ => lit "string"
  | .arr _ => lit "[]interface {}"
  | .obj _ => lit "map[string]interface {}"

/-- The unstructured converter on a `string` field: an absent or null value
gives the zero value, a string is copied, anything else is an error. -/
def stringFromUnstructured : Option Json → Except GoString GoString
  | none => .ok []
  | some .null => .ok []
  | some (.str s) => .ok s
  | some v => .error (lit "cannot convert " ++ goTypeName v ++ lit " to string")

/-- The unstructured converter on a `*int32` field. -/
def int32PtrFromUnstructured : Option Json → Except GoString (Option Int)
  | none => .ok none
  | some .null => .ok none
  | some (.int n) => .ok (some (wrapInt32 n))
  | some v => .error (lit "cannot convert " ++ goTypeName v ++ lit " to int32")

/-- The unstructured converter on the `status` field of the object: only the
six declared fields are read, keys that are not declared are ignored. -/
def statusFromUnstructured : Option Json → Except GoString ScheduledScalingStatus
  | none => .ok ⟨[], [], [], none, none, []⟩
  | some .null => .ok ⟨[], [], [], none, none, []⟩
  | some (.obj m) =>
    match stringFromUnstructured (jget m (lit "phase")) with
    | .error e => .error e
    | .ok phase =>
    match stringFromUnstructured (jget m (lit "appliedAt")) with
    | .error e => .error e
    | .ok appliedAt =>
    match stringFromUnstructured (jget m (lit "revertedAt")) with
    | .error e => .error e
    | .ok revertedAt =>
    match int32PtrFromUnstructured (jget m (lit "originalMinReplicas")) with
    | .error e => .error e
    | .ok omin =>
    match int32PtrFromUnstructured (jget m (lit "originalMaxReplicas")) with
    | .error e => .error e
    | .ok omax =>
    match stringFromUnstructured (jget m (lit "message")) with
    | .error e => .error e
    | .ok message => .ok ⟨phase, appliedAt, revertedAt, omin, omax, message⟩
  | some v => .error (lit "cannot restore struct from: " ++ goTypeName v)

/-- Embedding of `runtime.DefaultUnstructuredConverter.FromUnstructured(obj.Object, &ss)`. -/
def fromUnstructured {R : Type} (conv : Converter R) (obj : JMap) :
    Except GoString (ScheduledScaling R) :=
  match conv.fromRest obj with
  | .error e => .error e
  | .ok r =>
    match statusFromUnstructured (jget obj (lit "status")) with
    | .error e => .error e
    | .ok st => .ok ⟨r, st⟩

/-- A `string` field tagged `omitempty`. -/
def stringField (key : String) (v : GoString) : JMap :=
  if v = [] then [] else [(lit key, .str v)]

/-- A `*int32` field tagged `omitempty`. -/
def int32PtrField (key : String) (v : Option Int) : JMap :=
  match v with
  | none => []
  | some n => [(lit key, .int n)]

/-- The unstructured form of the typed status: the declared fields that are
not empty. -/
def statusToUnstructured (st : ScheduledScalingStatus) : JMap :=
  stringField "phase" st.Phase ++ stringField "appliedAt" st.AppliedAt ++
  stringField "revertedAt" st.RevertedAt ++
  int32PtrField "originalMinReplicas" st.OriginalMinReplicas ++
  int32PtrField "originalMaxReplicas" st.OriginalMaxReplicas ++
  stringField "message" st.Message

/-- Embedding of `runtime.DefaultUnstructuredConverter.ToUnstructured(&ss)`. -/
def toUnstructured {R : Type} (conv : Converter R) (ss : ScheduledScaling R) :
    Except GoString JMap :=
  match conv.toRest ss.rest with
  | .error e => .error e
  | .ok m => .ok (jset m (lit "status") (.obj (statusToUnstructured ss.Status)))

/-! ## The resource store and HTTP responses -/

/-- A call issued to the resource store. -/
inductive StoreCall where
  | get (ns name : GoString)
  | patch (path : GoString) (body : JMap)
  | update (ns : GoString) (obj : JMap)
  | delete (ns name : GoString)

/-- What the REST client hands back for the status patch: `result.Error()`,
then the error of `result.Raw()`, then the error of `json.Unmarshal`, or the
decoded document. -/
inductive PatchOutcome where
  | failed (err : GoString)
  | rawFailed (err : GoString)
  | unparsable (err : GoString)
  | ok (updatedObj : JMap)

/-- The external resource store over a state `σ`.  `get` is a read; `patch`
(merge patch sent to an absolute path), `update` and `delete` return the next
state.  Errors carry the text printed by `%v`. -/
structure Store (σ : Type) where
  get : σ → GoString → GoString → Except GoString JMap
  patch : σ → GoString → JMap → PatchOutcome × σ
  update : σ → GoString → JMap → Except GoString JMap × σ
  delete : σ → GoString → GoString → Option GoString × σ

/-- Body written to the `http.ResponseWriter`. -/
inductive Body where
  | none
  | text (msg : GoString)
  | json (doc : Json)

/-- Status code and body of the HTTP response; `text msg` is what
`http.Error(w, msg, code)` is given. -/
structure Response where
  code : Nat
  body : Body

/-- Result of running a handler: the response, the store calls in the order
they were issued and the store state afterwards. -/
structure Outcome (σ : Type) where
  response : Response
  calls : List StoreCall
  state : σ

/-- Predicate of a store call that writes. -/
def StoreCall.isWrite : StoreCall → Bool
  | .get _ _ => false
  | _ => true

/-! ## Single-item transition handler -/

/-- The loop `for k, v := range statusMap` of `cancelOrRevertScheduledScaling`:
every key that the patch does not hold yet is copied into it. -/
def mergeMissing (patch : JMap) (statusMap : JMap) : JMap :=
  statusMap.foldl (fun acc kv => if (jget acc kv.1).isSome then acc else jset acc kv.1 kv.2) patch

/-- The inner map `statusPatch["status"]` before the merge. -/
def initialPatch (action : GoString) : JMap :=
  jset [(lit "phase", .str (lit "Cancelled"))] (lit "message")
    (.str (if action = lit "cancel" then lit "Cancelled manually" else lit "Reverting manually"))

/-- The inner map `statusPatch["status"]` that `cancelOrRevertScheduledScaling`
builds from the fetched object. -/
def statusPatchInner (action : GoString) (obj : JMap) : JMap :=
  match jget obj (lit "status") with
  | some (.obj statusMap) => mergeMissing (initialPatch action) statusMap
  | _ => initialPatch action

/-- The document `statusPatch` sent as merge patch. -/
def statusPatch (action : GoString) (obj : JMap) : JMap :=
  [(lit "status", .obj (statusPatchInner action obj))]

/-- The absolute path of the status subresource. -/
def statusPath (ns name : GoString) : GoString :=
  lit "/apis/scaling.kubernetes.io/v1alpha1/namespaces/" ++ ns ++
    lit "/scheduledscalings/" ++ name ++ lit "/status"

/-- Embedding of `cancelOrRevertScheduledScaling`. -/
def cancelOrRevertScheduledScaling {σ R : Type} (store : Store σ) (conv : Converter R)
    (s : σ) (name ns action : GoString) : Outcome σ :=
  match store.get s ns name with
  | .error err =>
    ⟨⟨404, .text (lit "Error getting scheduledscaling: " ++ err)⟩, [.get ns name], s⟩
  | .ok obj =>
    match fromUnstructured conv obj with
    | .error err =>
      ⟨⟨500, .text (lit "Error converting scheduledscaling: " ++ err)⟩, [.get ns name], s⟩
    | .ok ss =>
      if action = lit "revert" ∧ ss.Status.Phase ≠ lit "Active" then
        ⟨⟨400, .text (lit "ScheduledScaling is not active, cannot revert")⟩, [.get ns name], s⟩
      else
        let body := statusPatch action obj
        let calls := [StoreCall.get ns name, StoreCall.patch (statusPath ns name) body]
        match store.patch s (statusPath ns name) body with
        | (.failed err, s') =>
          ⟨⟨500, .text (lit "Error patching status: " ++ err)⟩, calls, s'⟩
        | (.rawFailed err, s') =>
          ⟨⟨500, .text (lit "Error getting raw response: " ++ err)⟩, calls, s'⟩
        | (.unparsable err, s') =>
          ⟨⟨500, .text (lit "Error parsing response: " ++ err)⟩, calls, s'⟩
        | (.ok updatedObj, s') => ⟨⟨200, .json (.obj updatedObj)⟩, calls, s'⟩

/-! ## Batch transition orchestrator -/

/-- One element of `request.ScheduledScalings`. -/
structure BatchItem where
  Name : GoString
  Namespace : GoString

/-- The decoded body of a batch request. -/
structure BatchRequest where
  ScheduledScalings : List BatchItem
  Action : GoString

/-- The accumulators of the loop of `handleBatchCancel`, with the store calls
issued and the store state. -/
structure BatchState (σ : Type) where
  results : List JMap
  errors : List GoString
  calls : List StoreCall
  state : σ

/-- The namespace of an item: `"default"` when it is absent. -/
def itemNamespace (item : BatchItem) : GoString :=
  if item.Namespace = [] then lit "default" else item.Namespace

/-- The text `fmt.Sprintf("%s/%s: %v", ns, name, err)`. -/
def itemError (ns name err : GoString) : GoString :=
  ns ++ lit "/" ++ name ++ lit ": " ++ err

/-- The phase and message assignment of the batch loop: `none` when the item is
refused because a revert finds it not active. -/
def applyAction {R : Type} (action : GoString) (ssObj : ScheduledScaling R) :
    Option (ScheduledScaling R) :=
  if action = lit "cancel" then
    some { ssObj with Status := { ssObj.Status with
      Phase := lit "Cancelled", Message := lit "Cancelled manually (batch)" } }
  else if action = lit "revert" then
    if ssObj.Status.Phase = lit "Active" then
      some { ssObj with Status := { ssObj.Status with
        Phase := lit "Cancelled", Message := lit "Reverting manually (batch)" } }
    else none
  else some ssObj

/-- Body of the loop of `handleBatchCancel` for one item. -/
def batchStep {σ R : Type} (store : Store σ) (conv : Converter R) (action : GoString)
    (st : BatchState σ) (item : BatchItem) : BatchState σ :=
  let ns := itemNamespace item
  match store.get st.state ns item.Name with
  | .error err =>
    { st with errors := st.errors ++ [itemError ns item.Name err],
              calls := st.calls ++ [.get ns item.Name] }
  | .ok obj =>
    match fromUnstructured conv obj with
    | .error err =>
      { st with errors := st.errors ++ [itemError ns item.Name err],
                calls := st.calls ++ [.get ns item.Name] }
    | .ok ssObj =>
      match applyAction action ssObj with
      | none =>
        { st with errors := st.errors ++ [itemError ns item.Name (lit "not active, cannot revert")],
                  calls := st.calls ++ [.get ns item.Name] }
      | some ssObj' =>
        match toUnstructured conv ssObj' with
        | .error err =>
          { st with errors := st.errors ++ [itemError ns item.Name err],
                    calls := st.calls ++ [.get ns item.Name] }
        | .ok unstructuredMap =>
          match store.update st.state ns unstructuredMap with
          | (.error err, s') =>
            { results := st.results,
              errors := st.errors ++ [itemError ns item.Name err],
              calls := st.calls ++ [.get ns item.Name, .update ns unstructuredMap],
              state := s' }
          | (.ok updated, s') =>
            { results := st.results ++ [updated],
              errors := st.errors,
              calls := st.calls ++ [.get ns item.Name, .update ns unstructuredMap],
              state := s' }

/-- The loop of `handleBatchCancel`. -/
def batchLoop {σ R : Type} (store : Store σ) (conv : Converter R) (action : GoString)
    (st : BatchState σ) (items : List BatchItem) : BatchState σ :=
  items.foldl (batchStep store conv action) st

/-- The aggregate document written by `handleBatchCancel`. -/
def batchResponse (results : List JMap) (errors : List GoString) : JMap :=
  let response : JMap :=
    [(lit "success", .int results.length), (lit "errors", .int errors.length),
     (lit "results", .arr (results.map Json.obj))]
  if 0 < errors.length then jset response (lit "errorMessages") (.arr (errors.map Json.str))
  else response

/-- Embedding of `handleBatchCancel`; `body` is the outcome of decoding the
request body. -/
def handleBatchCancel {σ R : Type} (store : Store σ) (conv : Converter R) (s : σ)
    (method : GoString) (body : Except GoString BatchRequest) : Outcome σ :=
  if method = lit "OPTIONS" then ⟨⟨200, .none⟩, [], s⟩
  else if method ≠ lit "POST" then ⟨⟨405, .text (lit "Method not allowed")⟩, [], s⟩
  else
    match body with
    | .error err => ⟨⟨400, .text (lit "Error decoding request: " ++ err)⟩, [], s⟩
    | .ok request =>
      if request.Action ≠ lit "cancel" ∧ request.Action ≠ lit "revert" then
        ⟨⟨400, .text (lit "Invalid action. Use 'cancel' or 'revert'")⟩, [], s⟩
      else
        let fin := batchLoop store conv request.Action ⟨[], [], [], s⟩ request.ScheduledScalings
        ⟨⟨200, .json (.obj (batchResponse fin.results fin.errors))⟩, fin.calls, fin.state⟩

/-! ## Single-item routing -/

/-- The parts of an HTTP request that `handleScheduledScaling` reads: the
method, `r.URL.Path`, the query parameter `namespace`, and the outcome of
decoding the body as an action (PATCH) or as a resource (PUT). -/
structure Request (R : Type) where
  Method : GoString
  Path : GoString
  QueryNamespace : GoString
  Action : Except GoString GoString
  Resource : Except GoString (ScheduledScaling R)

/-- Embedding of `getScheduledScaling`. -/
def getScheduledScaling {σ : Type} (store : Store σ) (s : σ) (name ns : GoString) : Outcome σ :=
  match store.get s ns name with
  | .error err =>
    ⟨⟨404, .text (lit "Error getting scheduledscaling: " ++ err)⟩, [.get ns name], s⟩
  | .ok obj => ⟨⟨200, .json (.obj obj)⟩, [.get ns name], s⟩

/-- Embedding of `updateScheduledScaling`. -/
def updateScheduledScaling {σ R : Type} (store : Store σ) (conv : Converter R) (s : σ)
    (body : Except GoString (ScheduledScaling R)) (name ns : GoString) : Outcome σ :=
  match body with
  | .error err => ⟨⟨400, .text (lit "Error decoding request: " ++ err)⟩, [], s⟩
  | .ok ss =>
    match toUnstructured conv { ss with rest := conv.setIdentity ss.rest name ns } with
    | .error err => ⟨⟨500, .text (lit "Error converting: " ++ err)⟩, [], s⟩
    | .ok unstructuredMap =>
      match store.update s ns unstructuredMap with
      | (.error err, s') =>
        ⟨⟨500, .text (lit "Error updating scheduledscaling: " ++ err)⟩,
          [.update ns unstructuredMap], s'⟩
      | (.ok obj, s') => ⟨⟨200, .json (.obj obj)⟩, [.update ns unstructuredMap], s'⟩

/-- Embedding of `deleteScheduledScaling`. -/
def deleteScheduledScaling {σ : Type} (store : Store σ) (s : σ) (name ns : GoString) :
    Outcome σ :=
  match store.delete s ns name with
  | (some err, s') =>
    ⟨⟨500, .text (lit "Error deleting scheduledscaling: " ++ err)⟩, [.delete ns name], s'⟩
  | (none, s') => ⟨⟨204, .none⟩, [.delete ns name], s'⟩

/-- The `switch r.Method` of `handleScheduledScaling`, once name and namespace
are known. -/
def dispatch {σ R : Type} (store : Store σ) (conv : Converter R) (s : σ) (req : Request R)
    (name ns : GoString) : Outcome σ :=
  if req.Method = lit "GET" then getScheduledScaling store s name ns
  else if req.Method = lit "PUT" then updateScheduledScaling store conv s req.Resource name ns
  else if req.Method = lit "PATCH" then
    match req.Action with
    | .error err => ⟨⟨400, .text (lit "Error decoding request: " ++ err)⟩, [], s⟩
    | .ok action =>
      if action = lit "cancel" ∨ action = lit "revert" then
        cancelOrRevertScheduledScaling store conv s name ns action
      else ⟨⟨400, .text (lit "Invalid action. Use 'cancel' or 'revert'")⟩, [], s⟩
  else if req.Method = lit "DELETE" then deleteScheduledScaling store s name ns
  else ⟨⟨405, .text (lit "Method not allowed")⟩, [], s⟩

/-- The namespace chosen by `handleScheduledScaling`: the query parameter, or
`"default"` when it is empty, overridden by the second path part. -/
def requestNamespace (queryNamespace : GoString) (parts : List GoString) : GoString :=
  match parts with
  | _ :: second :: _ => second
  | _ => if queryNamespace = [] then lit "default" else queryNamespace

/-- Embedding of `handleScheduledScaling`. -/
def handleScheduledScaling {σ R : Type} (store : Store σ) (conv : Converter R) (s : σ)
    (req : Request R) : Outcome σ :=
  if req.Method = lit "OPTIONS" then ⟨⟨200, .none⟩, [], s⟩
  else
    match splitPath (req.Path.drop (lit "/api/v1/scheduledscalings/").length) with
    | [] => ⟨⟨400, .text (lit "Invalid path")⟩, [], s⟩
    | name :: more =>
      dispatch store conv s req name (requestNamespace req.QueryNamespace (name :: more))

/-! ## An in-memory resource store -/

/-- A stored resource with its key. -/
structure Entry where
  ns : GoString
  name : GoString
  obj : JMap

/-- JSON merge patch (RFC 7386) of a map by a map, one level below the top
for `status`: a null value deletes the key, any other value replaces it. -/
def mergeFlat (target : JMap) (patch : JMap) : JMap :=
  patch.foldl (fun acc kv =>
    match kv.2 with
    | .null => acc.filter (fun e => e.1 ≠ kv.1)
    | v => jset acc kv.1 v) target

/-- The status of a document after a merge patch of its status subresource. -/
def patchedObject (obj : JMap) (body : JMap) : JMap :=
  match jget body (lit "status") with
  | some (.obj p) =>
    match jget obj (lit "status") with
    | some (.obj cur) => jset obj (lit "status") (.obj (mergeFlat cur p))
    | _ => jset obj (lit "status") (.obj (mergeFlat [] p))
  | _ => obj

/-- The name under `metadata.name` of a document. -/
def objectName (obj : JMap) : GoString :=
  match jget obj (lit "metadata") with
  | some (.obj meta) =>
    match jget meta (lit "name") with
    | some (.str n) => n
    | _ => []
  | _ => []

/-- Replaces the document of the first entry that satisfies `p`; `none` when
there is no such entry. -/
def replaceFirst (p : Entry → Bool) (f : JMap → JMap) : List Entry → Option (JMap × List Entry)
  | [] => none
  | e :: es =>
    if p e then some (f e.obj, { e with obj := f e.obj } :: es)
    else
      match replaceFirst p f es with
      | none => none
      | some (o, es') => some (o, e :: es')

/-- A store that keeps its resources in a list: reads find the entry by key,
the status patch merges into the stored status, an update replaces the stored
document, a delete removes it. -/
def memStore : Store (List Entry) where
  get := fun s ns name =>
    match s.find? (fun e => e.ns = ns ∧ e.name = name) with
    | some e => .ok e.obj
    | none => .error (lit "scheduledscalings.scaling.kubernetes.io " ++ name ++ lit " not found")
  patch := fun s path body =>
    match replaceFirst (fun e => statusPath e.ns e.name = path) (fun o => patchedObject o body) s with
    | some (o, s') => (.ok o, s')
    | none => (.failed (lit "the server could not find the requested resource"), s)
  update := fun s ns obj =>
    match replaceFirst (fun e => e.ns = ns ∧ e.name = objectName obj) (fun _ => obj) s with
    | some (o, s') => (.ok o, s')
    | none =>
      (.error (lit "scheduledscalings.scaling.kubernetes.io " ++ objectName obj ++ lit " not found"), s)
  delete := fun s ns name =>
    match s.find? (fun e => e.ns = ns ∧ e.name = name) with
    | some _ => (none, s.filter (fun e => ¬ (e.ns = ns ∧ e.name = name)))
    | none => (some (lit "scheduledscalings.scaling.kubernetes.io " ++ name ++ lit " not found"), s)

/-- A converter that keeps the fields other than `status` as they are. -/
def plainConverter : Converter JMap where
  fromRest := fun obj => .ok (obj.filter (fun e => e.1 ≠ lit "status"))
  toRest := fun r => .ok r
  setIdentity := fun r _ _ => r

/-! ## Example data -/

/-- The directive `demo` of namespace `ns1` with status
`{phase: "Active", appliedAt: "t0", originalMinReplicas: 1}`. -/
def demoObj : JMap :=
  [(lit "metadata", .obj [(lit "name", .str (lit "demo")), (lit "namespace", .str (lit "ns1"))]),
   (lit "status", .obj [(lit "phase", .str (lit "Active")), (lit "appliedAt", .str (lit "t0")),
     (lit "originalMinReplicas", .int 1)])]

/-- The status map of `demoObj`. -/
def demoStatus : JMap :=
  [(lit "phase", .str (lit "Active")), (lit "appliedAt", .str (lit "t0")),
   (lit "originalMinReplicas", .int 1)]

/-- A store that holds `demoObj` only. -/
def demoStore : List Entry := [⟨lit "ns1", lit "demo", demoObj⟩]

/-- The directive `idle` of namespace `ns1` with status `{phase: "Pending"}`. -/
def idleObj : JMap :=
  [(lit "metadata", .obj [(lit "name", .str (lit "idle")), (lit "namespace", .str (lit "ns1"))]),
   (lit "status", .obj [(lit "phase", .str (lit "Pending"))])]

/-- A store that holds `idleObj` only. -/
def idleStore : List Entry := [⟨lit "ns1", lit "idle", idleObj⟩]

/-- The directive `done` of namespace `ns1` with status
`{phase: "Cancelled", message: "Cancelled manually"}`. -/
def doneObj : JMap :=
  [(lit "metadata", .obj [(lit "name", .str (lit "done")), (lit "namespace", .str (lit "ns1"))]),
   (lit "status", .obj [(lit "phase", .str (lit "Cancelled")),
     (lit "message", .str (lit "Cancelled manually"))])]

/-- A store that holds `doneObj` only. -/
def doneStore : List Entry := [⟨lit "ns1", lit "done", doneObj⟩]

/-- The directive `ext` of namespace `ns1` whose status holds, next to the
declared fields, the key `lastScheduleTime`. -/
def extObj : JMap :=
  [(lit "metadata", .obj [(lit "name", .str (lit "ext")), (lit "namespace", .str (lit "ns1"))]),
   (lit "status", .obj [(lit "phase", .str (lit "Active")), (lit "appliedAt", .str (lit "t0")),
     (lit "lastScheduleTime", .str (lit "t1"))])]

/-- A store that holds `extObj` only. -/
def extStore : List Entry := [⟨lit "ns1", lit "ext", extObj⟩]

/-- The status map of `extObj`. -/
def extStatus : JMap :=
  [(lit "phase", .str (lit "Active")), (lit "appliedAt", .str (lit "t0")),
   (lit "lastScheduleTime", .str (lit "t1"))]


/-- The directive `a` of namespace `ns1`, active. -/
def aObj : JMap :=
  [(lit "metadata", .obj [(lit "name", .str (lit "a")), (lit "namespace", .str (lit "ns1"))]),
   (lit "status", .obj [(lit "phase", .str (lit "Active"))])]

/-- The directive `b` of namespace `default`, active. -/
def bObj : JMap :=
  [(lit "metadata", .obj [(lit "name", .str (lit "b")), (lit "namespace", .str (lit "default"))]),
   (lit "status", .obj [(lit "phase", .str (lit "Active"))])]

/-- A store that holds `aObj` and `bObj`. -/
def abStore : List Entry := [⟨lit "ns1", lit "a", aObj⟩, ⟨lit "default", lit "b", bObj⟩]

/-- The document of `a` once a batch cancel has updated it. -/
def aCancelled : JMap :=
  [(lit "metadata", .obj [(lit "name", .str (lit "a")), (lit "namespace", .str (lit "ns1"))]),
   (lit "status", .obj [(lit "phase", .str (lit "Cancelled")),
     (lit "message", .str (lit "Cancelled manually (batch)"))])]

/-- The document of `b` once a batch cancel has updated it. -/
def bCancelled : JMap :=
  [(lit "metadata", .obj [(lit "name", .str (lit "b")), (lit "namespace", .str (lit "default"))]),
   (lit "status", .obj [(lit "phase", .str (lit "Cancelled")),
     (lit "message", .str (lit "Cancelled manually (batch)"))])]
/-! ## Notions used to state the properties -/

/-- The record of one batch item processed on its own from the store state
`s`: the loop body run on empty accumulators. -/
def stepFrom {σ R : Type} (store : Store σ) (conv : Converter R) (action : GoString)
    (s : σ) (item : BatchItem) : BatchState σ :=
  batchStep store conv action ⟨[], [], [], s⟩ item

/-- The records of the items of a batch in input order, each processed from the
store state its predecessors left. -/
def perItem {σ R : Type} (store : Store σ) (conv : Converter R) (action : GoString) :
    σ → List BatchItem → List (BatchState σ)
  | _, [] => []
  | s, item :: items =>
    stepFrom store conv action s item ::
      perItem store conv action (stepFrom store conv action s item).state items

/-- The bytes of a sequence of runes, each encoded by `string(rune)`. -/
def encodeRunes (rs : List Nat) : GoString := rs.flatMap encodeRune

/-- A Unicode scalar value: a code point up to U+10FFFF that is not a
surrogate. -/
def IsScalar (r : Nat) : Prop := r ≤ 0x10FFFF ∧ ¬ (0xD800 ≤ r ∧ r ≤ 0xDFFF)

/-- A string is valid UTF-8 when it is the encoding of a sequence of scalar
values. -/
def ValidUTF8 (s : GoString) : Prop := ∃ rs : List Nat, (∀ r ∈ rs, IsScalar r) ∧ s = encodeRunes rs

/-- The non-empty pieces of a sequence split at every slash. -/
def slashPieces (l : List Nat) : List (List Nat) := (l.splitOn slash).filter (fun p => p ≠ [])

/-- The parts that the loop of `splitPath` and its final flush produce from
the remaining runes `rs` when the current run is `cur`. -/
def splitRuns : GoString → List Nat → List GoString
  | cur, [] => if cur ≠ [] then [cur] else []
  | cur, r :: rs =>
    if r = slash then
      if cur ≠ [] then cur :: splitRuns [] rs else splitRuns [] rs
    else splitRuns (cur ++ encodeRune r) rs

/-! ## Facts about maps -/

theorem jget_jset (m : JMap) (k k' : GoString) (v : Json) :
    jget (jset m k v) k' = if k = k' then some v else jget m k' := by
  induction m with
  | nil => simp [jset, jget]
  | cons e rest ih =>
    obtain ⟨ke, ve⟩ := e
    by_cases h : ke = k
    · subst h
      by_cases h2 : ke = k' <;> simp [jset, jget, h2]
    · simp only [jset, if_neg h, jget, ih]
      by_cases h2 : ke = k'
      · subst h2
        simp [Ne.symm h]
      · simp [h2]

theorem mem_jkeys_iff (m : JMap) (k : GoString) : k ∈ jkeys m ↔ (jget m k).isSome = true := by
  induction m with
  | nil => simp [jkeys, jget]
  | cons e rest ih =>
    obtain ⟨ke, ve⟩ := e
    by_cases h : ke = k
    · simp [jkeys, jget, h]
    · have ih' : k ∈ List.map Prod.fst rest ↔ (jget rest k).isSome = true := ih
      simp [jkeys, jget, h, Ne.symm h, ← ih']

theorem jget_mergeMissing (patch statusMap : JMap) (k : GoString) :
    jget (mergeMissing patch statusMap) k =
      match jget patch k with
      | some v => some v
      | none => jget statusMap k := by
  induction statusMap generalizing patch with
  | nil => cases h : jget patch k <;> simp [mergeMissing, jget, h]
  | cons e rest ih =>
    obtain ⟨ke, ve⟩ := e
    have hstep : mergeMissing patch ((ke, ve) :: rest) =
        mergeMissing (if (jget patch ke).isSome then patch else jset patch ke ve) rest := rfl
    rw [hstep, ih]
    by_cases hs : (jget patch ke).isSome = true
    · rw [if_pos hs]
      cases hp : jget patch k with
      | some v => rfl
      | none =>
        have hne : ke ≠ k := by
          rintro rfl
          simp [hp] at hs
        simp [jget, hne]
    · rw [if_neg hs, jget_jset]
      by_cases hk : ke = k
      · subst hk
        have hnone : jget patch ke = none := by
          cases hp : jget patch ke with
          | none => rfl
          | some v => simp [hp] at hs
        simp [hnone, jget]
      · simp [hk, jget]

/-! ## Facts about the handlers shared by several claims -/

theorem jget_statusPatchInner_phase (action : GoString) (obj : JMap) :
    jget (statusPatchInner action obj) (lit "phase") = some (.str (lit "Cancelled")) := by
  have h0 : jget (initialPatch action) (lit "phase") = some (.str (lit "Cancelled")) := by
    have hne : lit "phase" ≠ lit "message" := by decide
    unfold initialPatch
    rw [jget_jset]
    simp [jget, Ne.symm hne]
  unfold statusPatchInner
  split
  · rw [jget_mergeMissing, h0]
  · exact h0

theorem revert_refused_single {σ R : Type} (store : Store σ) (conv : Converter R) (s : σ)
    (name ns : GoString) (obj : JMap) (ss : ScheduledScaling R)
    (hget : store.get s ns name = .ok obj)
    (hconv : fromUnstructured conv obj = .ok ss)
    (hphase : ss.Status.Phase ≠ lit "Active") :
    cancelOrRevertScheduledScaling store conv s name ns (lit "revert") =
      ⟨⟨400, .text (lit "ScheduledScaling is not active, cannot revert")⟩, [.get ns name], s⟩ := by
  simp [cancelOrRevertScheduledScaling, hget, hconv, hphase]

theorem revert_refused_batch {σ R : Type} (store : Store σ) (conv : Converter R)
    (st : BatchState σ) (item : BatchItem) (obj : JMap) (ss : ScheduledScaling R)
    (hget : store.get st.state (itemNamespace item) item.Name = .ok obj)
    (hconv : fromUnstructured conv obj = .ok ss)
    (hphase : ss.Status.Phase ≠ lit "Active") :
    batchStep store conv (lit "revert") st item =
      { results := st.results,
        errors := st.errors ++
          [itemError (itemNamespace item) item.Name (lit "not active, cannot revert")],
        calls := st.calls ++ [.get (itemNamespace item) item.Name],
        state := st.state } := by
  have hne : lit "revert" ≠ lit "cancel" := by decide
  have happ : applyAction (lit "revert") ss = none := by
    simp [applyAction, hne, hphase]
  simp only [batchStep, hget, hconv, happ]

theorem accepted_single {σ R : Type} (store : Store σ) (conv : Converter R) (s : σ)
    (name ns action : GoString) (obj : JMap) (ss : ScheduledScaling R)
    (hget : store.get s ns name = .ok obj)
    (hconv : fromUnstructured conv obj = .ok ss)
    (hguard : ¬ (action = lit "revert" ∧ ss.Status.Phase ≠ lit "Active")) :
    (cancelOrRevertScheduledScaling store conv s name ns action).calls =
        [.get ns name, .patch (statusPath ns name) (statusPatch action obj)] ∧
    (cancelOrRevertScheduledScaling store conv s name ns action).state =
        (store.patch s (statusPath ns name) (statusPatch action obj)).2 ∧
    (cancelOrRevertScheduledScaling store conv s name ns action).response.code ≠ 400 ∧
    (∀ updatedObj, (store.patch s (statusPath ns name) (statusPatch action obj)).1 =
        .ok updatedObj →
      (cancelOrRevertScheduledScaling store conv s name ns action).response =
        ⟨200, .json (.obj updatedObj)⟩) := by
  simp only [cancelOrRevertScheduledScaling, hget, hconv, if_neg hguard]
  cases hp : store.patch s (statusPath ns name) (statusPatch action obj) with
  | mk out s' => cases out <;> simp

theorem cancel_batch {σ R : Type} (store : Store σ) (conv : Converter R)
    (st : BatchState σ) (item : BatchItem) (obj m : JMap) (ss : ScheduledScaling R)
    (hget : store.get st.state (itemNamespace item) item.Name = .ok obj)
    (hconv : fromUnstructured conv obj = .ok ss)
    (hto : conv.toRest ss.rest = .ok m) :
    batchStep store conv (lit "cancel") st item =
      match store.update st.state (itemNamespace item)
        (jset m (lit "status") (.obj (statusToUnstructured
          { ss.Status with Phase := lit "Cancelled",
                           Message := lit "Cancelled manually (batch)" }))) with
      | (.error err, s') =>
        { results := st.results,
          errors := st.errors ++ [itemError (itemNamespace item) item.Name err],
          calls := st.calls ++ [.get (itemNamespace item) item.Name,
            .update (itemNamespace item)
              (jset m (lit "status") (.obj (statusToUnstructured
                { ss.Status with Phase := lit "Cancelled",
                                 Message := lit "Cancelled manually (batch)" })))],
          state := s' }
      | (.ok updated, s') =>
        { results := st.results ++ [updated],
          errors := st.errors,
          calls := st.calls ++ [.get (itemNamespace item) item.Name,
            .update (itemNamespace item)
              (jset m (lit "status") (.obj (statusToUnstructured
                { ss.Status with Phase := lit "Cancelled",
                                 Message := lit "Cancelled manually (batch)" })))],
          state := s' } := by
  simp only [batchStep, hget, hconv, applyAction, toUnstructured, hto, if_true]

theorem cancel_batch_calls {σ R : Type} (store : Store σ) (conv : Converter R)
    (st : BatchState σ) (item : BatchItem) (obj m : JMap) (ss : ScheduledScaling R)
    (hget : store.get st.state (itemNamespace item) item.Name = .ok obj)
    (hconv : fromUnstructured conv obj = .ok ss)
    (hto : conv.toRest ss.rest = .ok m) :
    (batchStep store conv (lit "cancel") st item).calls =
        st.calls ++ [.get (itemNamespace item) item.Name,
          .update (itemNamespace item)
            (jset m (lit "status") (.obj (statusToUnstructured
              { ss.Status with Phase := lit "Cancelled",
                               Message := lit "Cancelled manually (batch)" })))] := by
  rw [cancel_batch store conv st item obj m ss hget hconv hto]
  cases hu : store.update st.state (itemNamespace item)
      (jset m (lit "status") (.obj (statusToUnstructured
        { ss.Status with Phase := lit "Cancelled",
                         Message := lit "Cancelled manually (batch)" }))) with
  | mk out s' => cases out <;> rfl

theorem jget_statusToUnstructured_phase (st : ScheduledScalingStatus) (h : st.Phase ≠ []) :
    jget (statusToUnstructured st) (lit "phase") = some (.str st.Phase) := by
  simp [statusToUnstructured, stringField, h, jget]

/-! ## Facts about the batch loop -/

theorem batchStep_eq_append {σ R : Type} (store : Store σ) (conv : Converter R)
    (action : GoString) (st : BatchState σ) (item : BatchItem) :
    batchStep store conv action st item =
      { results := st.results ++ (stepFrom store conv action st.state item).results,
        errors := st.errors ++ (stepFrom store conv action st.state item).errors,
        calls := st.calls ++ (stepFrom store conv action st.state item).calls,
        state := (stepFrom store conv action st.state item).state } := by
  simp only [stepFrom, batchStep]
  rcases h1 : store.get st.state (itemNamespace item) item.Name with e | obj
  · simp
  dsimp only
  rcases h2 : fromUnstructured conv obj with e | ss
  · simp
  dsimp only
  rcases h3 : applyAction action ss with _ | ss'
  · simp
  dsimp only
  rcases h4 : toUnstructured conv ss' with e | m
  · simp
  dsimp only
  rcases h5 : store.update st.state (itemNamespace item) m with ⟨e | updated, s'⟩ <;> simp

theorem stepFrom_one {σ R : Type} (store : Store σ) (conv : Converter R)
    (action : GoString) (s : σ) (item : BatchItem) :
    (∃ doc, (stepFrom store conv action s item).results = [doc] ∧
        (stepFrom store conv action s item).errors = []) ∨
    (∃ reason, (stepFrom store conv action s item).results = [] ∧
        (stepFrom store conv action s item).errors =
          [itemError (itemNamespace item) item.Name reason]) := by
  simp only [stepFrom, batchStep]
  rcases h1 : store.get s (itemNamespace item) item.Name with e | obj
  · exact Or.inr ⟨e, rfl, rfl⟩
  dsimp only
  rcases h2 : fromUnstructured conv obj with e | ss
  · exact Or.inr ⟨e, rfl, rfl⟩
  dsimp only
  rcases h3 : applyAction action ss with _ | ss'
  · exact Or.inr ⟨_, rfl, rfl⟩
  dsimp only
  rcases h4 : toUnstructured conv ss' with e | m
  · exact Or.inr ⟨e, rfl, rfl⟩
  dsimp only
  rcases h5 : store.update s (itemNamespace item) m with ⟨e | updated, s'⟩
  · exact Or.inr ⟨e, rfl, rfl⟩
  · exact Or.inl ⟨updated, rfl, rfl⟩

theorem batchLoop_nil {σ R : Type} (store : Store σ) (conv : Converter R)
    (action : GoString) (st : BatchState σ) :
    batchLoop store conv action st [] = st := rfl

theorem batchLoop_cons {σ R : Type} (store : Store σ) (conv : Converter R)
    (action : GoString) (st : BatchState σ) (item : BatchItem) (items : List BatchItem) :
    batchLoop store conv action st (item :: items) =
      batchLoop store conv action (batchStep store conv action st item) items := rfl

theorem batchLoop_append {σ R : Type} (store : Store σ) (conv : Converter R)
    (action : GoString) (st : BatchState σ) (xs ys : List BatchItem) :
    batchLoop store conv action st (xs ++ ys) =
      batchLoop store conv action (batchLoop store conv action st xs) ys := by
  simp [batchLoop, List.foldl_append]

theorem batchLoop_eq_perItem {σ R : Type} (store : Store σ) (conv : Converter R)
    (action : GoString) (st : BatchState σ) (items : List BatchItem) :
    (batchLoop store conv action st items).results =
        st.results ++ (perItem store conv action st.state items).flatMap (fun r => r.results) ∧
    (batchLoop store conv action st items).errors =
        st.errors ++ (perItem store conv action st.state items).flatMap (fun r => r.errors) ∧
    (batchLoop store conv action st items).calls =
        st.calls ++ (perItem store conv action st.state items).flatMap (fun r => r.calls) := by
  induction items generalizing st with
  | nil => simp [batchLoop_nil, perItem]
  | cons item items ih =>
    rw [batchLoop_cons]
    obtain ⟨h1, h2, h3⟩ := ih (batchStep store conv action st item)
    rw [h1, h2, h3, batchStep_eq_append]
    simp [perItem, List.append_assoc]

theorem batchLoop_state_eq {σ R : Type} (store : Store σ) (conv : Converter R)
    (action : GoString) (st st' : BatchState σ) (items : List BatchItem)
    (h : st.state = st'.state) :
    (batchLoop store conv action st items).state =
      (batchLoop store conv action st' items).state := by
  induction items generalizing st st' with
  | nil => simpa [batchLoop_nil] using h
  | cons item items ih =>
    rw [batchLoop_cons, batchLoop_cons]
    apply ih
    rw [batchStep_eq_append, batchStep_eq_append store conv action st', h]

theorem perItem_length {σ R : Type} (store : Store σ) (conv : Converter R)
    (action : GoString) (s : σ) (items : List BatchItem) :
    (perItem store conv action s items).length = items.length := by
  induction items generalizing s with
  | nil => rfl
  | cons item items ih => simp [perItem, ih]

theorem batchLoop_count {σ R : Type} (store : Store σ) (conv : Converter R)
    (action : GoString) (st : BatchState σ) (items : List BatchItem) :
    (batchLoop store conv action st items).results.length +
        (batchLoop store conv action st items).errors.length =
      st.results.length + st.errors.length + items.length := by
  induction items generalizing st with
  | nil => simp [batchLoop_nil]
  | cons item items ih =>
    rw [batchLoop_cons, ih, batchStep_eq_append]
    rcases stepFrom_one store conv action st.state item with ⟨d, h1, h2⟩ | ⟨e, h1, h2⟩ <;>
      simp [h1, h2] <;> omega

theorem jget_batchResponse (results : List JMap) (errors : List GoString) :
    jget (batchResponse results errors) (lit "success") = some (.int results.length) ∧
    jget (batchResponse results errors) (lit "errors") = some (.int errors.length) ∧
    jget (batchResponse results errors) (lit "results") = some (.arr (results.map Json.obj)) ∧
    jget (batchResponse results errors) (lit "errorMessages") =
      (if 0 < errors.length then some (.arr (errors.map Json.str)) else none) := by
  have h1 : lit "errorMessages" ≠ lit "success" := by decide
  have h2 : lit "errorMessages" ≠ lit "errors" := by decide
  have h3 : lit "errorMessages" ≠ lit "results" := by decide
  have h4 : lit "success" ≠ lit "errors" := by decide
  have h5 : lit "success" ≠ lit "results" := by decide
  have h6 : lit "errors" ≠ lit "results" := by decide
  unfold batchResponse
  by_cases h : 0 < errors.length
  · simp only [if_pos h, jget_jset]
    simp [jget, h1, h2, h3, h4, h5, h6, Ne.symm h1, Ne.symm h2, Ne.symm h3]
  · simp only [if_neg h]
    simp [jget, h1, h2, h3, h4, h5, h6, Ne.symm h1, Ne.symm h2, Ne.symm h3, Ne.symm h4,
      Ne.symm h5, Ne.symm h6]

theorem perItem_one {σ R : Type} (store : Store σ) (conv : Converter R)
    (action : GoString) (s : σ) (items : List BatchItem) :
    ∀ p ∈ items.zip (perItem store conv action s items),
      (∃ doc, p.2.results = [doc] ∧ p.2.errors = []) ∨
      (∃ reason, p.2.results = [] ∧
        p.2.errors = [itemError (itemNamespace p.1) p.1.Name reason]) := by
  induction items generalizing s with
  | nil => simp [perItem]
  | cons item items ih =>
    intro p hp
    simp only [perItem, List.zip_cons_cons, List.mem_cons] at hp
    rcases hp with rfl | hp
    · exact stepFrom_one store conv action s item
    · exact ih _ p hp

theorem handleBatchCancel_valid {σ R : Type} (store : Store σ) (conv : Converter R)
    (s : σ) (items : List BatchItem) (action : GoString)
    (hact : action = lit "cancel" ∨ action = lit "revert") :
    handleBatchCancel store conv s (lit "POST") (.ok ⟨items, action⟩) =
      ⟨⟨200, .json (.obj (batchResponse
          ((perItem store conv action s items).flatMap (fun r => r.results))
          ((perItem store conv action s items).flatMap (fun r => r.errors))))⟩,
        (perItem store conv action s items).flatMap (fun r => r.calls),
        (batchLoop store conv action ⟨[], [], [], s⟩ items).state⟩ := by
  have h4 : lit "POST" ≠ lit "OPTIONS" := by decide
  have hv : ¬ (action ≠ lit "cancel" ∧ action ≠ lit "revert") := by
    rcases hact with h | h
    · exact fun hc => hc.1 h
    · exact fun hc => hc.2 h
  obtain ⟨h1, h2, h3⟩ := batchLoop_eq_perItem store conv action ⟨[], [], [], s⟩ items
  simp only [List.nil_append] at h1 h2 h3
  unfold handleBatchCancel
  rw [if_neg h4, if_neg (fun h => h rfl)]
  dsimp only
  rw [if_neg hv, h1, h2, h3]

theorem batchLoop_frame {σ R : Type} (store : Store σ) (conv : Converter R)
    (action : GoString) (st : BatchState σ) (items : List BatchItem) :
    (batchLoop store conv action st items).results =
        st.results ++ (batchLoop store conv action ⟨[], [], [], st.state⟩ items).results ∧
    (batchLoop store conv action st items).errors =
        st.errors ++ (batchLoop store conv action ⟨[], [], [], st.state⟩ items).errors ∧
    (batchLoop store conv action st items).state =
        (batchLoop store conv action ⟨[], [], [], st.state⟩ items).state := by
  obtain ⟨h1, h2, _⟩ := batchLoop_eq_perItem store conv action st items
  obtain ⟨g1, g2, _⟩ := batchLoop_eq_perItem store conv action ⟨[], [], [], st.state⟩ items
  simp only [List.nil_append] at g1 g2
  exact ⟨by rw [h1, g1], by rw [h2, g2], batchLoop_state_eq store conv action _ _ items rfl⟩

theorem handleBatchCancel_loop {σ R : Type} (store : Store σ) (conv : Converter R)
    (s : σ) (items : List BatchItem) (action : GoString)
    (hact : action = lit "cancel" ∨ action = lit "revert") :
    handleBatchCancel store conv s (lit "POST") (.ok ⟨items, action⟩) =
      ⟨⟨200, .json (.obj (batchResponse
          (batchLoop store conv action ⟨[], [], [], s⟩ items).results
          (batchLoop store conv action ⟨[], [], [], s⟩ items).errors))⟩,
        (batchLoop store conv action ⟨[], [], [], s⟩ items).calls,
        (batchLoop store conv action ⟨[], [], [], s⟩ items).state⟩ := by
  have h4 : lit "POST" ≠ lit "OPTIONS" := by decide
  have hv : ¬ (action ≠ lit "cancel" ∧ action ≠ lit "revert") := by
    rcases hact with h | h
    · exact fun hc => hc.1 h
    · exact fun hc => hc.2 h
  unfold handleBatchCancel
  rw [if_neg h4, if_neg (fun h => h rfl)]
  dsimp only
  rw [if_neg hv]

theorem stepFrom_get_error {σ R : Type} (store : Store σ) (conv : Converter R)
    (action : GoString) (s : σ) (item : BatchItem) (err : GoString)
    (h : store.get s (itemNamespace item) item.Name = .error err) :
    stepFrom store conv action s item =
      ⟨[], [itemError (itemNamespace item) item.Name err],
        [.get (itemNamespace item) item.Name], s⟩ := by
  simp [stepFrom, batchStep, h]

theorem stepFrom_active {σ R : Type} (store : Store σ) (conv : Converter R)
    (action : GoString) (s s' : σ) (item : BatchItem) (obj m updated : JMap)
    (ss : ScheduledScaling R)
    (hact : action = lit "cancel" ∨ action = lit "revert")
    (hget : store.get s (itemNamespace item) item.Name = .ok obj)
    (hconv : fromUnstructured conv obj = .ok ss)
    (hphase : ss.Status.Phase = lit "Active")
    (hto : conv.toRest ss.rest = .ok m)
    (hupd : store.update s (itemNamespace item)
      (jset m (lit "status") (.obj (statusToUnstructured
        { ss.Status with
          Phase := lit "Cancelled",
          Message := if action = lit "cancel" then lit "Cancelled manually (batch)"
            else lit "Reverting manually (batch)" }))) = (.ok updated, s')) :
    stepFrom store conv action s item =
      ⟨[updated], [],
        [.get (itemNamespace item) item.Name,
         .update (itemNamespace item)
          (jset m (lit "status") (.obj (statusToUnstructured
            { ss.Status with
              Phase := lit "Cancelled",
              Message := if action = lit "cancel" then lit "Cancelled manually (batch)"
                else lit "Reverting manually (batch)" })))],
        s'⟩ := by
  have hne : lit "revert" ≠ lit "cancel" := by decide
  rcases hact with rfl | rfl
  · simp only [if_true] at hupd
    simp [stepFrom, batchStep, hget, hconv, applyAction, toUnstructured, hto, hupd]
  · simp only [if_neg hne] at hupd
    simp [stepFrom, batchStep, hget, hconv, applyAction, hne, hphase, toUnstructured, hto, hupd]

/-! ## Facts about runes and `splitPath` -/

theorem encodeRune_ne_nil (r : Nat) : encodeRune r ≠ [] := by
  unfold encodeRune
  split_ifs <;> simp

theorem encodeRune_slash : encodeRune slash = [slash] := by decide

theorem slash_mem_encodeRune (r : Nat) (h : slash ∈ encodeRune r) : r = slash := by
  unfold encodeRune at h
  unfold slash at h ⊢
  split_ifs at h <;> simp at h <;> omega

theorem decodeRune_slash (rest : List Nat) : decodeRune slash rest = (slash, 1) := by
  simp [decodeRune, slash]

theorem decodeRune_fst_slash (b : Nat) (rest : List Nat)
    (h : (decodeRune b rest).1 = slash) : b = slash := by
  unfold decodeRune at h
  unfold slash runeError at *
  dsimp only at h
  repeat' split at h
  all_goals (simp at h <;> omega)

theorem splitFinish_foldl (rs : List Nat) (parts : List GoString) (cur : GoString) :
    splitFinish (rs.foldl splitStep ⟨parts, cur⟩) = parts ++ splitRuns cur rs := by
  induction rs generalizing parts cur with
  | nil =>
    by_cases h : cur = [] <;> simp [splitFinish, splitRuns, h]
  | cons r rs ih =>
    rw [List.foldl_cons]
    by_cases hr : r = slash
    · by_cases h : cur = []
      · simp [splitStep, splitRuns, hr, h, ih]
      · simp [splitStep, splitRuns, hr, h, ih]
    · simp [splitStep, splitRuns, hr, ih]

theorem splitPath_eq_splitRuns (path : GoString) : splitPath path = splitRuns [] (runes path) := by
  simp [splitPath, splitFinish_foldl]

theorem splitRuns_eq_splitOn (cur : GoString) (rs : List Nat) :
    splitRuns cur rs =
      (List.modifyHead (fun p => cur ++ p) ((rs.splitOn slash).map encodeRunes)).filter
        (fun p => p ≠ []) := by
  induction rs generalizing cur with
  | nil =>
    by_cases h : cur = [] <;> simp [splitRuns, List.splitOn, encodeRunes, h]
  | cons r rs ih =>
    have hne := List.splitOnP_ne_nil (fun x => x == slash) rs
    unfold List.splitOn at ih ⊢
    rw [List.splitOnP_cons]
    by_cases hr : r = slash
    · have ih0 := ih []
      cases hs : List.splitOnP (fun x => x == slash) rs with
      | nil => exact absurd hs hne
      | cons p0 ps =>
        rw [hs] at ih0
        by_cases h : cur = []
        · simp [splitRuns, hr, h, ih0, encodeRunes]
        · simp [splitRuns, hr, h, ih0, encodeRunes]
    · have ih1 := ih (cur ++ encodeRune r)
      cases hs : List.splitOnP (fun x => x == slash) rs with
      | nil => exact absurd hs hne
      | cons p0 ps =>
        rw [hs] at ih1
        simp [splitRuns, hr, ih1, encodeRunes]

theorem encodeRunes_eq_nil (rs : List Nat) : encodeRunes rs = [] ↔ rs = [] := by
  cases rs with
  | nil => simp [encodeRunes]
  | cons r rs => simp [encodeRunes, encodeRune_ne_nil]

theorem splitPath_eq_pieces (path : GoString) :
    splitPath path = (slashPieces (runes path)).map encodeRunes := by
  rw [splitPath_eq_splitRuns, splitRuns_eq_splitOn, slashPieces]
  have hid : ∀ l : List GoString, List.modifyHead (fun p => [] ++ p) l = l := by
    intro l
    cases l <;> simp
  rw [hid, List.filter_map]
  congr 1
  apply List.filter_congr
  intro p _
  simp [encodeRunes_eq_nil]

theorem splitRuns_parts (cur : GoString) (rs : List Nat) (hcur : slash ∉ cur) :
    ∀ p ∈ splitRuns cur rs, p ≠ [] ∧ slash ∉ p := by
  induction rs generalizing cur with
  | nil =>
    intro p hp
    by_cases h : cur = []
    · simp [splitRuns, h] at hp
    · simp only [splitRuns, ne_eq, h, not_false_eq_true, if_true, List.mem_singleton] at hp
      subst hp
      exact ⟨h, hcur⟩
  | cons r rs ih =>
    intro p hp
    by_cases hr : r = slash
    · by_cases h : cur = []
      · simp only [splitRuns, hr, h, if_true, ne_eq, not_true_eq_false, if_false] at hp
        exact ih [] (by simp) p hp
      · simp only [splitRuns, hr, if_true, ne_eq, h, not_false_eq_true, List.mem_cons] at hp
        rcases hp with rfl | hp
        · exact ⟨h, hcur⟩
        · exact ih [] (by simp) p hp
    · simp only [splitRuns, hr, if_false] at hp
      refine ih (cur ++ encodeRune r) ?_ p hp
      intro hmem
      rcases List.mem_append.1 hmem with h1 | h2
      · exact hcur h1
      · exact hr (slash_mem_encodeRune r h2)

theorem splitRuns_eq_nil (cur : GoString) (rs : List Nat) :
    splitRuns cur rs = [] ↔ cur = [] ∧ ∀ r ∈ rs, r = slash := by
  induction rs generalizing cur with
  | nil => by_cases h : cur = [] <;> simp [splitRuns, h]
  | cons r rs ih =>
    by_cases hr : r = slash
    · by_cases h : cur = []
      · simp [splitRuns, hr, h, ih]
      · simp [splitRuns, hr, h]
    · simp [splitRuns, hr, ih, encodeRune_ne_nil]

theorem splitRuns_join (cur : GoString) (rs : List Nat) :
    (splitRuns cur rs).flatten = cur ++ encodeRunes (rs.filter (fun r => r ≠ slash)) := by
  induction rs generalizing cur with
  | nil => by_cases h : cur = [] <;> simp [splitRuns, h, encodeRunes]
  | cons r rs ih =>
    by_cases hr : r = slash
    · by_cases h : cur = []
      · simp [splitRuns, hr, h, ih]
      · simp [splitRuns, hr, h, ih]
    · simp [splitRuns, hr, ih, encodeRunes]

theorem runes_all_slash (path : GoString) :
    (∀ r ∈ runes path, r = slash) ↔ ∀ b ∈ path, b = slash := by
  unfold runes
  induction path with
  | nil => simp [runesFrom]
  | cons b bs ih =>
    simp only [runesFrom, List.mem_cons, forall_eq_or_imp]
    constructor
    · rintro ⟨h1, h2⟩
      have hb := decodeRune_fst_slash b bs h1
      subst hb
      rw [decodeRune_slash] at h2
      exact ⟨rfl, ih.1 h2⟩
    · rintro ⟨rfl, h2⟩
      rw [decodeRune_slash]
      exact ⟨rfl, ih.2 h2⟩

theorem runesFrom_encodeRune (r : Nat) (rest : List Nat) (hr : IsScalar r) :
    runesFrom 0 (encodeRune r ++ rest) = r :: runesFrom 0 rest := by
  obtain ⟨h1, h2⟩ := hr
  unfold encodeRune
  by_cases c1 : r ≤ 0x7F
  · have hd : decodeRune r rest = (r, 1) := by
      have : r < 0x80 := by omega
      simp [decodeRune, this]
    simp [c1, runesFrom, hd]
  · by_cases c2 : r ≤ 0x7FF
    · have hd : decodeRune (0xC0 + r / 64) ((0x80 + r % 64) :: rest) = (r, 2) := by
        have e1 : ¬ (0xC0 + r / 64 < 0x80) := by omega
        have e2 : 0xC0 ≤ 0xC0 + r / 64 ∧ 0xC0 + r / 64 < 0xE0 := by omega
        have e3 : isCont (0x80 + r % 64) = true := by
          simp only [isCont, Bool.and_eq_true, decide_eq_true_eq]
          omega
        have e4 : (0xC0 + r / 64) % 32 * 64 + (0x80 + r % 64) % 64 = r := by omega
        have e5 : 0x7F < r := by omega
        simp only [decodeRune, if_neg e1, if_pos e2, e3, if_true, e4, if_pos e5]
      simp only [if_neg c1, if_pos c2, List.cons_append, List.nil_append, runesFrom, hd]
    · have c3 : ¬ (0x10FFFF < r ∨ (0xD800 ≤ r ∧ r ≤ 0xDFFF)) := by
        rintro (h | h)
        · omega
        · exact h2 h
      by_cases c4 : r ≤ 0xFFFF
      · have hd : decodeRune (0xE0 + r / 4096)
            ((0x80 + r / 64 % 64) :: (0x80 + r % 64) :: rest) = (r, 3) := by
          have e1 : ¬ (0xE0 + r / 4096 < 0x80) := by omega
          have e2 : ¬ (0xC0 ≤ 0xE0 + r / 4096 ∧ 0xE0 + r / 4096 < 0xE0) := by omega
          have e3 : 0xE0 ≤ 0xE0 + r / 4096 ∧ 0xE0 + r / 4096 < 0xF0 := by omega
          have e4 : isCont (0x80 + r / 64 % 64) = true := by
            simp only [isCont, Bool.and_eq_true, decide_eq_true_eq]
            omega
          have e5 : isCont (0x80 + r % 64) = true := by
            simp only [isCont, Bool.and_eq_true, decide_eq_true_eq]
            omega
          have e6 : (0xE0 + r / 4096) % 16 * 4096 + (0x80 + r / 64 % 64) % 64 * 64 +
              (0x80 + r % 64) % 64 = r := by omega
          have e7 : 0x7FF < r ∧ ¬ (0xD800 ≤ r ∧ r ≤ 0xDFFF) := ⟨by omega, h2⟩
          simp only [decodeRune, if_neg e1, if_neg e2, if_pos e3, e4, e5, Bool.and_self, if_true,
            e6, if_pos e7]
        simp only [if_neg c1, if_neg c2, if_neg c3, if_pos c4, List.cons_append,
          List.nil_append, runesFrom, hd]
      · have hd : decodeRune (0xF0 + r / 262144)
            ((0x80 + r / 4096 % 64) :: (0x80 + r / 64 % 64) :: (0x80 + r % 64) :: rest) =
            (r, 4) := by
          have e1 : ¬ (0xF0 + r / 262144 < 0x80) := by omega
          have e2 : ¬ (0xC0 ≤ 0xF0 + r / 262144 ∧ 0xF0 + r / 262144 < 0xE0) := by omega
          have e3 : ¬ (0xE0 ≤ 0xF0 + r / 262144 ∧ 0xF0 + r / 262144 < 0xF0) := by omega
          have e3' : 0xF0 ≤ 0xF0 + r / 262144 ∧ 0xF0 + r / 262144 < 0xF8 := by omega
          have e4 : isCont (0x80 + r / 4096 % 64) = true := by
            simp only [isCont, Bool.and_eq_true, decide_eq_true_eq]
            omega
          have e5 : isCont (0x80 + r / 64 % 64) = true := by
            simp only [isCont, Bool.and_eq_true, decide_eq_true_eq]
            omega
          have e5' : isCont (0x80 + r % 64) = true := by
            simp only [isCont, Bool.and_eq_true, decide_eq_true_eq]
            omega
          have e6 : (0xF0 + r / 262144) % 8 * 262144 + (0x80 + r / 4096 % 64) % 64 * 4096 +
              (0x80 + r / 64 % 64) % 64 * 64 + (0x80 + r % 64) % 64 = r := by omega
          have e7 : 0xFFFF < r ∧ r ≤ 0x10FFFF := ⟨by omega, h1⟩
          simp only [decodeRune, if_neg e1, if_neg e2, if_neg e3, if_pos e3', e4, e5, e5',
            Bool.and_self, if_true, e6, if_pos e7]
        simp only [if_neg c1, if_neg c2, if_neg c3, if_neg c4, List.cons_append,
          List.nil_append, runesFrom, hd]

theorem runes_encodeRunes (rs : List Nat) (h : ∀ r ∈ rs, IsScalar r) :
    runes (encodeRunes rs) = rs := by
  unfold runes
  induction rs with
  | nil => rfl
  | cons r rs ih =>
    have hcons : encodeRunes (r :: rs) = encodeRune r ++ encodeRunes rs := by
      simp [encodeRunes]
    rw [hcons, runesFrom_encodeRune r _ (h r (List.mem_cons_self _ _)),
      ih (fun x hx => h x (List.mem_cons_of_mem _ hx))]

theorem splitOnP_append_left (p : Nat → Bool) (seg l : List Nat) (h : ∀ x ∈ seg, p x = false) :
    List.splitOnP p (seg ++ l) = List.modifyHead (fun q => seg ++ q) (List.splitOnP p l) := by
  induction seg with
  | nil =>
    rw [List.nil_append]
    cases List.splitOnP p l <;> simp
  | cons x seg ih =>
    have hx : p x = false := h x (List.mem_cons_self _ _)
    have ih' := ih (fun y hy => h y (List.mem_cons_of_mem _ hy))
    rw [List.cons_append, List.splitOnP_cons, hx, ih']
    cases List.splitOnP p l <;> simp

theorem encodeRune_no_slash (r : Nat) (hr : r ≠ slash) :
    ∀ x ∈ encodeRune r, (x == slash) = false := by
  intro x hx
  simp only [beq_eq_false_iff_ne, ne_eq]
  rintro rfl
  exact hr (slash_mem_encodeRune r hx)

theorem splitOn_encodeRunes (rs : List Nat) :
    (encodeRunes rs).splitOn slash = (rs.splitOn slash).map encodeRunes := by
  unfold List.splitOn
  induction rs with
  | nil => simp [encodeRunes]
  | cons r rs ih =>
    have hcons : encodeRunes (r :: rs) = encodeRune r ++ encodeRunes rs := by
      simp [encodeRunes]
    have hne := List.splitOnP_ne_nil (fun x => x == slash) rs
    rw [hcons, List.splitOnP_cons]
    by_cases hr : r = slash
    · subst hr
      rw [encodeRune_slash, List.singleton_append, List.splitOnP_cons, ih]
      simp [encodeRunes]
    · rw [splitOnP_append_left _ _ _ (encodeRune_no_slash r hr), ih]
      cases hs : List.splitOnP (fun x => x == slash) rs with
      | nil => exact absurd hs hne
      | cons p0 ps => simp [hr, encodeRunes]

theorem filter_encodeRunes (rs : List Nat) :
    (encodeRunes rs).filter (fun b => b ≠ slash) =
      encodeRunes (rs.filter (fun r => r ≠ slash)) := by
  induction rs with
  | nil => rfl
  | cons r rs ih =>
    have hcons : encodeRunes (r :: rs) = encodeRune r ++ encodeRunes rs := by
      simp [encodeRunes]
    rw [hcons, List.filter_append, ih]
    by_cases hr : r = slash
    · subst hr
      simp [encodeRune_slash]
    · have hkeep : (encodeRune r).filter (fun b => b ≠ slash) = encodeRune r := by
        rw [List.filter_eq_self]
        intro x hx
        have := encodeRune_no_slash r hr x hx
        simpa using this
      rw [hkeep]
      simp [hr, encodeRunes]

theorem splitPath_valid (path : GoString) (h : ValidUTF8 path) :
    splitPath path = slashPieces path ∧
    (splitPath path).flatten = path.filter (fun b => b ≠ slash) := by
  obtain ⟨rs, hrs, rfl⟩ := h
  have hr := runes_encodeRunes rs hrs
  constructor
  · rw [splitPath_eq_pieces, hr, slashPieces, slashPieces, splitOn_encodeRunes, List.filter_map]
    congr 1
    apply List.filter_congr
    intro p _
    simp [encodeRunes_eq_nil]
  · rw [splitPath_eq_splitRuns, splitRuns_join, hr, filter_encodeRunes]
    simp

/-! ## Facts about the routing of `handleScheduledScaling` -/

theorem decoding_text_ne (err : GoString) :
    lit "Error decoding request: " ++ err ≠ lit "Invalid path" := by
  intro h
  have h1 : (lit "Error decoding request: " ++ err).head? = some 69 := rfl
  have h2 : (lit "Invalid path").head? = some 73 := rfl
  rw [h, h2] at h1
  exact absurd h1 (by decide)

theorem cancelOrRevert_ne_invalid_path {σ R : Type} (store : Store σ) (conv : Converter R)
    (s : σ) (name ns action : GoString) :
    (cancelOrRevertScheduledScaling store conv s name ns action).response ≠
      ⟨400, .text (lit "Invalid path")⟩ := by
  have ht : lit "ScheduledScaling is not active, cannot revert" ≠ lit "Invalid path" := by
    decide
  unfold cancelOrRevertScheduledScaling
  rcases h1 : store.get s ns name with e | obj
  · simp
  dsimp only
  rcases h2 : fromUnstructured conv obj with e | ss
  · simp
  dsimp only
  split
  · simp [ht]
  · rcases h3 : store.patch s (statusPath ns name) (statusPatch action obj) with ⟨out, s'⟩
    cases out <;> simp

theorem dispatch_ne_invalid_path {σ R : Type} (store : Store σ) (conv : Converter R)
    (s : σ) (req : Request R) (name ns : GoString) :
    (dispatch store conv s req name ns).response ≠ ⟨400, .text (lit "Invalid path")⟩ := by
  have ht : lit "Invalid action. Use 'cancel' or 'revert'" ≠ lit "Invalid path" := by decide
  unfold dispatch
  split
  · unfold getScheduledScaling
    rcases h1 : store.get s ns name with e | obj <;> simp
  split
  · unfold updateScheduledScaling
    rcases h1 : req.Resource with e | ss
    · simp [decoding_text_ne]
    dsimp only
    rcases h2 : toUnstructured conv { ss with rest := conv.setIdentity ss.rest name ns }
      with e | m
    · simp
    dsimp only
    rcases h3 : store.update s ns m with ⟨e | obj, s'⟩ <;> simp
  split
  · rcases h1 : req.Action with e | action
    · simp [decoding_text_ne]
    dsimp only
    split
    · exact cancelOrRevert_ne_invalid_path store conv s name ns action
    · simp [ht]
  split
  · unfold deleteScheduledScaling
    rcases h1 : store.delete s ns name with ⟨_ | e, s'⟩ <;> simp
  · simp

/-! ## C1: the status merge of the single-item handler -/

theorem jget_initialPatch (action k : GoString) :
    jget (initialPatch action) k =
      if k = lit "phase" then some (.str (lit "Cancelled"))
      else if k = lit "message" then
        some (.str (if action = lit "cancel" then lit "Cancelled manually"
          else lit "Reverting manually"))
      else none := by
  have hne : lit "phase" ≠ lit "message" := by decide
  unfold initialPatch
  rw [jget_jset]
  by_cases h1 : k = lit "phase"
  · subst h1
    simp [jget, Ne.symm hne]
  · by_cases h2 : k = lit "message"
    · subst h2
      simp [Ne.symm hne]
    · simp [jget, h1, h2, Ne.symm h1, Ne.symm h2]

theorem statusPatchInner_of_status (action : GoString) (obj S : JMap)
    (h : jget obj (lit "status") = some (.obj S)) :
    statusPatchInner action obj = mergeMissing (initialPatch action) S := by
  simp [statusPatchInner, h]

/-- C1. When the fetched directive converts, its status is the map `S`, and the
request is a revert on phase `Active` or a cancel on any phase, the single-item
handler reads the directive once and sends one status patch `{"status": P}`
with `P[phase] = "Cancelled"`, `P[message]` the message of the action,
`P[k] = S[k]` for every other key, and the keys of `P` are exactly `phase`,
`message` and the keys of `S`. -/
theorem c1_status_merge {σ R : Type} (store : Store σ) (conv : Converter R) (s : σ)
    (name ns action : GoString) (obj S : JMap) (ss : ScheduledScaling R)
    (hget : store.get s ns name = .ok obj)
    (hconv : fromUnstructured conv obj = .ok ss)
    (hstatus : jget obj (lit "status") = some (.obj S))
    (hact : action = lit "cancel" ∨ (action = lit "revert" ∧ ss.Status.Phase = lit "Active")) :
    (cancelOrRevertScheduledScaling store conv s name ns action).calls =
        [.get ns name,
         .patch (statusPath ns name) [(lit "status", .obj (statusPatchInner action obj))]] ∧
    jget (statusPatchInner action obj) (lit "phase") = some (.str (lit "Cancelled")) ∧
    jget (statusPatchInner action obj) (lit "message") =
        some (.str (if action = lit "cancel" then lit "Cancelled manually"
          else lit "Reverting manually")) ∧
    (∀ k, k ≠ lit "phase" → k ≠ lit "message" →
        jget (statusPatchInner action obj) k = jget S k) ∧
    (∀ k, k ∈ jkeys (statusPatchInner action obj) ↔
        k = lit "phase" ∨ k = lit "message" ∨ k ∈ jkeys S) := by
  have hne : lit "message" ≠ lit "phase" := by decide
  have hguard : ¬ (action = lit "revert" ∧ ss.Status.Phase ≠ lit "Active") := by
    rcases hact with h | ⟨_, h⟩
    · subst h
      intro hc
      exact absurd hc.1 (by decide)
    · exact fun hc => hc.2 h
  have hlook : ∀ k, jget (statusPatchInner action obj) k =
      match jget (initialPatch action) k with
      | some v => some v
      | none => jget S k := by
    intro k
    rw [statusPatchInner_of_status action obj S hstatus, jget_mergeMissing]
  refine ⟨?_, ?_, ?_, ?_, ?_⟩
  · simp only [cancelOrRevertScheduledScaling, hget, hconv, if_neg hguard, statusPatch]
    cases hp : store.patch s (statusPath ns name)
        [(lit "status", Json.obj (statusPatchInner action obj))] with
    | mk out s' => cases out <;> rfl
  · rw [hlook, jget_initialPatch]
    simp
  · rw [hlook, jget_initialPatch]
    simp [hne]
  · intro k h1 h2
    rw [hlook, jget_initialPatch]
    simp [h1, h2]
  · intro k
    rw [mem_jkeys_iff, mem_jkeys_iff, hlook, jget_initialPatch]
    by_cases h1 : k = lit "phase"
    · simp [h1]
    · by_cases h2 : k = lit "message"
      · simp [h2, hne]
      · simp [h1, h2]

/-- Witness of C1: the revert of `demo` in `ns1` with status
`{phase: "Active", appliedAt: "t0", originalMinReplicas: 1}` sends the status
`{phase: "Cancelled", message: "Reverting manually", appliedAt: "t0",
originalMinReplicas: 1}`. -/
theorem c1_status_merge_witness :
    statusPatchInner (lit "revert") demoObj =
        [(lit "phase", .str (lit "Cancelled")), (lit "message", .str (lit "Reverting manually")),
         (lit "appliedAt", .str (lit "t0")), (lit "originalMinReplicas", .int 1)] ∧
    (cancelOrRevertScheduledScaling memStore plainConverter demoStore (lit "demo") (lit "ns1")
        (lit "revert")).calls =
      [.get (lit "ns1") (lit "demo"),
       .patch (statusPath (lit "ns1") (lit "demo"))
         [(lit "status", .obj (statusPatchInner (lit "revert") demoObj))]] :=
  ⟨by rfl,
   (c1_status_merge memStore plainConverter demoStore (lit "demo") (lit "ns1") (lit "revert")
      demoObj demoStatus ⟨demoObj.filter (fun e => e.1 ≠ lit "status"),
        ⟨lit "Active", lit "t0", [], some 1, none, []⟩⟩
      (by rfl) (by rfl) (by rfl) (Or.inr ⟨rfl, by rfl⟩)).1⟩

/-! ## C2: revert on a directive that is not active -/

/-- C2. When the fetched directive converts and its phase is not `"Active"`, a
revert request answers 400 with the text "ScheduledScaling is not active,
cannot revert", issues the read and no other store call, and leaves the store
state as it was; in the batch loop the item records the error
`"{ns}/{name}: not active, cannot revert"`, adds no result, issues the read
only and leaves the store state as it was. -/
theorem c2_revert_not_active {σ R : Type} (store : Store σ) (conv : Converter R) (s : σ)
    (name ns : GoString) (obj : JMap) (ss : ScheduledScaling R)
    (hget : store.get s ns name = .ok obj)
    (hconv : fromUnstructured conv obj = .ok ss)
    (hphase : ss.Status.Phase ≠ lit "Active") :
    cancelOrRevertScheduledScaling store conv s name ns (lit "revert") =
      ⟨⟨400, .text (lit "ScheduledScaling is not active, cannot revert")⟩, [.get ns name], s⟩ ∧
    ∀ (st : BatchState σ) (item : BatchItem),
      st.state = s → itemNamespace item = ns → item.Name = name →
      batchStep store conv (lit "revert") st item =
        { results := st.results,
          errors := st.errors ++ [itemError ns name (lit "not active, cannot revert")],
          calls := st.calls ++ [.get ns name],
          state := s } := by
  refine ⟨revert_refused_single store conv s name ns obj ss hget hconv hphase, ?_⟩
  intro st item hs hns hname
  subst hs hns hname
  exact revert_refused_batch store conv st item obj ss hget hconv hphase

/-- Witness of C2: the directive `idle` of `ns1` is `Pending`; its revert is
refused with no write, alone and as the item of a batch. -/
theorem c2_revert_not_active_witness :
    cancelOrRevertScheduledScaling memStore plainConverter idleStore (lit "idle") (lit "ns1")
        (lit "revert") =
      ⟨⟨400, .text (lit "ScheduledScaling is not active, cannot revert")⟩,
        [.get (lit "ns1") (lit "idle")], idleStore⟩ ∧
    batchStep memStore plainConverter (lit "revert") ⟨[], [], [], idleStore⟩
        ⟨lit "idle", lit "ns1"⟩ =
      { results := [],
        errors := [itemError (lit "ns1") (lit "idle") (lit "not active, cannot revert")],
        calls := [.get (lit "ns1") (lit "idle")],
        state := idleStore } :=
  have h := c2_revert_not_active memStore plainConverter idleStore (lit "idle") (lit "ns1")
    idleObj ⟨idleObj.filter (fun e => e.1 ≠ lit "status"), ⟨lit "Pending", [], [], none, none, []⟩⟩
    (by rfl) (by rfl) (by decide)
  ⟨h.1, h.2 ⟨[], [], [], idleStore⟩ ⟨lit "idle", lit "ns1"⟩ rfl (by rfl) rfl⟩

/-! ## C3: cancel is accepted in every phase -/

/-- C3. For every directive that is fetched and converts, whatever its phase,
a cancel request is not refused: the single-item handler reads it and sends
one status patch whose phase is `"Cancelled"`, never answers 400, and answers
200 with the patched document when the store accepts the patch; a second
cancel issued on the state the first one left does the same; in the batch loop
the item is read and one update is sent whose status has phase `"Cancelled"`,
and it is counted as a result when the store accepts the update. -/
theorem c3_cancel_accepted {σ R : Type} (store : Store σ) (conv : Converter R) (s : σ)
    (name ns : GoString) (obj : JMap) (ss : ScheduledScaling R)
    (hget : store.get s ns name = .ok obj)
    (hconv : fromUnstructured conv obj = .ok ss) :
    ((cancelOrRevertScheduledScaling store conv s name ns (lit "cancel")).calls =
        [.get ns name, .patch (statusPath ns name) (statusPatch (lit "cancel") obj)] ∧
      jget (statusPatchInner (lit "cancel") obj) (lit "phase") = some (.str (lit "Cancelled")) ∧
      (cancelOrRevertScheduledScaling store conv s name ns (lit "cancel")).response.code ≠ 400 ∧
      (∀ updatedObj,
        (store.patch s (statusPath ns name) (statusPatch (lit "cancel") obj)).1 = .ok updatedObj →
        (cancelOrRevertScheduledScaling store conv s name ns (lit "cancel")).response =
          ⟨200, .json (.obj updatedObj)⟩)) ∧
    (∀ (obj2 : JMap) (ss2 : ScheduledScaling R),
      store.get (cancelOrRevertScheduledScaling store conv s name ns (lit "cancel")).state
        ns name = .ok obj2 →
      fromUnstructured conv obj2 = .ok ss2 →
      (cancelOrRevertScheduledScaling store conv
          (cancelOrRevertScheduledScaling store conv s name ns (lit "cancel")).state
          name ns (lit "cancel")).calls =
        [.get ns name, .patch (statusPath ns name) (statusPatch (lit "cancel") obj2)] ∧
      jget (statusPatchInner (lit "cancel") obj2) (lit "phase") = some (.str (lit "Cancelled")) ∧
      (cancelOrRevertScheduledScaling store conv
          (cancelOrRevertScheduledScaling store conv s name ns (lit "cancel")).state
          name ns (lit "cancel")).response.code ≠ 400) ∧
    (∀ (st : BatchState σ) (item : BatchItem) (m : JMap),
      st.state = s → itemNamespace item = ns → item.Name = name →
      conv.toRest ss.rest = .ok m →
      ∃ doc status,
        (batchStep store conv (lit "cancel") st item).calls =
          st.calls ++ [.get ns name, .update ns doc] ∧
        jget doc (lit "status") = some (.obj status) ∧
        jget status (lit "phase") = some (.str (lit "Cancelled")) ∧
        (∀ updated s', store.update s ns doc = (.ok updated, s') →
          (batchStep store conv (lit "cancel") st item).results = st.results ++ [updated] ∧
          (batchStep store conv (lit "cancel") st item).errors = st.errors)) := by
  have hguard : ∀ ss' : ScheduledScaling R,
      ¬ (lit "cancel" = lit "revert" ∧ ss'.Status.Phase ≠ lit "Active") :=
    fun _ hc => absurd hc.1 (by decide)
  refine ⟨?_, ?_, ?_⟩
  · obtain ⟨h1, _, h3, h4⟩ :=
      accepted_single store conv s name ns (lit "cancel") obj ss hget hconv (hguard ss)
    exact ⟨h1, jget_statusPatchInner_phase _ _, h3, h4⟩
  · intro obj2 ss2 hget2 hconv2
    obtain ⟨h1, _, h3, _⟩ :=
      accepted_single store conv _ name ns (lit "cancel") obj2 ss2 hget2 hconv2 (hguard ss2)
    exact ⟨h1, jget_statusPatchInner_phase _ _, h3⟩
  · intro st item m hs hns hname hto
    subst hs hns hname
    refine ⟨_, statusToUnstructured { ss.Status with
        Phase := lit "Cancelled", Message := lit "Cancelled manually (batch)" },
      cancel_batch_calls store conv st item obj m ss hget hconv hto, ?_, ?_, ?_⟩
    · rw [jget_jset]
      simp
    · have hne : lit "Cancelled" ≠ [] := by decide
      exact jget_statusToUnstructured_phase _ hne
    · intro updated s' hu
      rw [cancel_batch store conv st item obj m ss hget hconv hto, hu]
      exact ⟨rfl, rfl⟩

/-- Witness of C3: cancelling `demo` of `ns1` twice in succession answers 200
both times, and the stored status has phase `"Cancelled"` after each call. -/
theorem c3_cancel_accepted_witness :
    (cancelOrRevertScheduledScaling memStore plainConverter demoStore (lit "demo") (lit "ns1")
        (lit "cancel")).calls =
      [.get (lit "ns1") (lit "demo"),
       .patch (statusPath (lit "ns1") (lit "demo")) (statusPatch (lit "cancel") demoObj)] ∧
    (cancelOrRevertScheduledScaling memStore plainConverter demoStore (lit "demo") (lit "ns1")
        (lit "cancel")).response.code = 200 ∧
    (cancelOrRevertScheduledScaling memStore plainConverter
        (cancelOrRevertScheduledScaling memStore plainConverter demoStore (lit "demo") (lit "ns1")
          (lit "cancel")).state (lit "demo") (lit "ns1") (lit "cancel")).response.code = 200 ∧
    ((memStore.get (cancelOrRevertScheduledScaling memStore plainConverter
        (cancelOrRevertScheduledScaling memStore plainConverter demoStore (lit "demo") (lit "ns1")
          (lit "cancel")).state (lit "demo") (lit "ns1") (lit "cancel")).state
        (lit "ns1") (lit "demo")).toOption.bind (fun o => jget o (lit "status"))) =
      some (.obj [(lit "phase", .str (lit "Cancelled")), (lit "appliedAt", .str (lit "t0")),
        (lit "originalMinReplicas", .int 1), (lit "message", .str (lit "Cancelled manually"))]) :=
  ⟨(c3_cancel_accepted memStore plainConverter demoStore (lit "demo") (lit "ns1") demoObj
      ⟨demoObj.filter (fun e => e.1 ≠ lit "status"), ⟨lit "Active", lit "t0", [], some 1, none, []⟩⟩
      (by rfl) (by rfl)).1.1,
    by rfl, by rfl, by rfl⟩

/-! ## C4: the status document written by the batch loop -/

/-- C4, evaluation at the failing input. The directive `ext` of `ns1` has the
status `{phase: "Active", appliedAt: "t0", lastScheduleTime: "t1"}`.  A batch
cancel sends an update whose status is `{phase: "Cancelled", appliedAt: "t0",
message: "Cancelled manually (batch)"}`: the key `lastScheduleTime` is gone,
whereas the status patch of the single-item handler for the same directive
and action keeps it. -/
theorem c4_batch_drops_undeclared_status_key :
    (handleBatchCancel memStore plainConverter extStore (lit "POST")
        (.ok ⟨[⟨lit "ext", lit "ns1"⟩], lit "cancel"⟩)).calls =
      [.get (lit "ns1") (lit "ext"),
       .update (lit "ns1")
         [(lit "metadata",
            .obj [(lit "name", .str (lit "ext")), (lit "namespace", .str (lit "ns1"))]),
          (lit "status",
            .obj [(lit "phase", .str (lit "Cancelled")), (lit "appliedAt", .str (lit "t0")),
              (lit "message", .str (lit "Cancelled manually (batch)"))])]] ∧
    jget [(lit "phase", Json.str (lit "Cancelled")), (lit "appliedAt", .str (lit "t0")),
        (lit "message", .str (lit "Cancelled manually (batch)"))] (lit "lastScheduleTime") = none ∧
    jget extStatus (lit "lastScheduleTime") = some (.str (lit "t1")) ∧
    jget (statusPatchInner (lit "cancel") extObj) (lit "lastScheduleTime") =
      some (.str (lit "t1")) :=
  ⟨by rfl, by rfl, by rfl, by rfl⟩

/-! ## C5: isolation of a failing batch item -/

/-- C5. Take a batch `pre ++ k :: post` with a valid action in which every item
of `pre` and of `post` succeeds when its turn comes and `k` fails.  The batch
answers 200 with the results of `pre` followed by those of `post`, one less
than the number of items, and the single recorded error
`"{namespace}/{name}: {reason}"` of `k`: `success = N - 1`, `errors = 1`.  When
`k` fails at its read (its name is not in the store) the results are those of
the batch without `k`.  An item succeeds in particular when it is a valid
active directive: it is read, converts, has phase `"Active"` and the store
accepts its update. -/
theorem c5_batch_isolation {σ R : Type} (store : Store σ) (conv : Converter R)
    (s : σ) (action : GoString) (pre post : List BatchItem) (k : BatchItem)
    (hact : action = lit "cancel" ∨ action = lit "revert")
    (hpre : (batchLoop store conv action ⟨[], [], [], s⟩ pre).errors = [])
    (hk : (stepFrom store conv action
      (batchLoop store conv action ⟨[], [], [], s⟩ pre).state k).results = [])
    (hpost : (batchLoop store conv action ⟨[], [], [], (stepFrom store conv action
      (batchLoop store conv action ⟨[], [], [], s⟩ pre).state k).state⟩ post).errors = []) :
    (∃ results reason,
      (handleBatchCancel store conv s (lit "POST") (.ok ⟨pre ++ k :: post, action⟩)).response =
        ⟨200, .json (.obj (batchResponse results
          [itemError (itemNamespace k) k.Name reason]))⟩ ∧
      results = (batchLoop store conv action ⟨[], [], [], s⟩ pre).results ++
        (batchLoop store conv action ⟨[], [], [], (stepFrom store conv action
          (batchLoop store conv action ⟨[], [], [], s⟩ pre).state k).state⟩ post).results ∧
      results.length + 1 = (pre ++ k :: post).length ∧
      jget (batchResponse results [itemError (itemNamespace k) k.Name reason]) (lit "success") =
        some (.int ((pre ++ k :: post).length - 1 : Nat)) ∧
      jget (batchResponse results [itemError (itemNamespace k) k.Name reason]) (lit "errors") =
        some (.int 1) ∧
      jget (batchResponse results [itemError (itemNamespace k) k.Name reason])
          (lit "results") = some (.arr (results.map Json.obj)) ∧
      jget (batchResponse results [itemError (itemNamespace k) k.Name reason])
          (lit "errorMessages") =
        some (.arr [.str (itemError (itemNamespace k) k.Name reason)]) ∧
      (∀ err, store.get (batchLoop store conv action ⟨[], [], [], s⟩ pre).state
          (itemNamespace k) k.Name = .error err →
        reason = err ∧
        (handleBatchCancel store conv s (lit "POST") (.ok ⟨pre ++ post, action⟩)).response =
          ⟨200, .json (.obj (batchResponse results []))⟩)) ∧
    (∀ (s0 s1 : σ) (item : BatchItem) (obj m updated : JMap) (ss : ScheduledScaling R),
      store.get s0 (itemNamespace item) item.Name = .ok obj →
      fromUnstructured conv obj = .ok ss →
      ss.Status.Phase = lit "Active" →
      conv.toRest ss.rest = .ok m →
      store.update s0 (itemNamespace item)
        (jset m (lit "status") (.obj (statusToUnstructured
          { ss.Status with
            Phase := lit "Cancelled",
            Message := if action = lit "cancel" then lit "Cancelled manually (batch)"
              else lit "Reverting manually (batch)" }))) = (.ok updated, s1) →
      (stepFrom store conv action s0 item).results = [updated] ∧
      (stepFrom store conv action s0 item).errors = [] ∧
      (stepFrom store conv action s0 item).state = s1) := by
  refine ⟨?_, fun s0 s1 item obj m updated ss h1 h2 h3 h4 h5 => by
    rw [stepFrom_active store conv action s0 s1 item obj m updated ss hact h1 h2 h3 h4 h5]
    exact ⟨rfl, rfl, rfl⟩⟩
  have hK := stepFrom_one store conv action
    (batchLoop store conv action ⟨[], [], [], s⟩ pre).state k
  rcases hK with ⟨doc, hd, _⟩ | ⟨reason, _, hKe⟩
  · rw [hk] at hd
    exact absurd hd (by simp)
  have cpre := batchLoop_count store conv action ⟨[], [], [], s⟩ pre
  have cpost := batchLoop_count store conv action ⟨[], [], [], (stepFrom store conv action
      (batchLoop store conv action ⟨[], [], [], s⟩ pre).state k).state⟩ post
  rw [hpre] at cpre
  rw [hpost] at cpost
  simp only [List.length_nil, Nat.add_zero, Nat.zero_add] at cpre cpost
  obtain ⟨f1, f2, _⟩ := batchLoop_frame store conv action
    (batchStep store conv action (batchLoop store conv action ⟨[], [], [], s⟩ pre) k) post
  have hfin_r : (batchLoop store conv action ⟨[], [], [], s⟩ (pre ++ k :: post)).results =
      (batchLoop store conv action ⟨[], [], [], s⟩ pre).results ++
        (batchLoop store conv action ⟨[], [], [], (stepFrom store conv action
          (batchLoop store conv action ⟨[], [], [], s⟩ pre).state k).state⟩ post).results := by
    rw [batchLoop_append, batchLoop_cons, f1, batchStep_eq_append, hk]
    simp
  have hfin_e : (batchLoop store conv action ⟨[], [], [], s⟩ (pre ++ k :: post)).errors =
      [itemError (itemNamespace k) k.Name reason] := by
    rw [batchLoop_append, batchLoop_cons, f2, batchStep_eq_append, hKe, hpre]
    dsimp only
    rw [hpost]
    simp
  have hlen : ((batchLoop store conv action ⟨[], [], [], s⟩ pre).results ++
        (batchLoop store conv action ⟨[], [], [], (stepFrom store conv action
          (batchLoop store conv action ⟨[], [], [], s⟩ pre).state k).state⟩ post).results).length
      + 1 = (pre ++ k :: post).length := by
    simp only [List.length_append, List.length_cons]
    omega
  obtain ⟨j1, j2, j3, j4⟩ := jget_batchResponse
    ((batchLoop store conv action ⟨[], [], [], s⟩ pre).results ++
        (batchLoop store conv action ⟨[], [], [], (stepFrom store conv action
          (batchLoop store conv action ⟨[], [], [], s⟩ pre).state k).state⟩ post).results)
    [itemError (itemNamespace k) k.Name reason]
  refine ⟨_, reason, ?_, rfl, hlen, ?_, ?_, j3, ?_, ?_⟩
  · rw [handleBatchCancel_loop store conv s _ action hact, hfin_r, hfin_e]
  · rw [j1, ← hlen]
    simp
  · rw [j2]
    simp
  · rw [j4]
    simp
  · intro err herr
    have hstep := stepFrom_get_error store conv action _ k err herr
    have hreason : reason = err := by
      rw [hstep] at hKe
      simp only [List.cons.injEq, and_true] at hKe
      simp only [itemError, List.append_cancel_left_eq] at hKe
      exact hKe.symm
    refine ⟨hreason, ?_⟩
    obtain ⟨g1, g2, _⟩ := batchLoop_frame store conv action
      (batchLoop store conv action ⟨[], [], [], s⟩ pre) post
    have hs : (stepFrom store conv action
        (batchLoop store conv action ⟨[], [], [], s⟩ pre).state k).state =
        (batchLoop store conv action ⟨[], [], [], s⟩ pre).state := by
      rw [hstep]
    rw [hs] at hpost
    rw [handleBatchCancel_loop store conv s _ action hact, batchLoop_append, g1, g2, hpre,
      hpost, hs]
    simp

/-- Witness of C5: the store holds `a` of `ns1` and `b` of `default`, both
active; the batch `[a, missing, b]` with action `cancel` reports two results,
one error and the message of `missing`. -/
theorem c5_batch_isolation_witness :
    (handleBatchCancel memStore plainConverter abStore (lit "POST")
        (.ok ⟨[⟨lit "a", lit "ns1"⟩] ++ ⟨lit "missing", lit "ns1"⟩ :: [⟨lit "b", []⟩],
          lit "cancel"⟩)).response =
      ⟨200, .json (.obj
        [(lit "success", .int 2), (lit "errors", .int 1),
         (lit "results", .arr [.obj aCancelled, .obj bCancelled]),
         (lit "errorMessages", .arr [.str (lit
           "ns1/missing: scheduledscalings.scaling.kubernetes.io missing not found")])])⟩ := by
  obtain ⟨⟨results, reason, h1, h2, -, -, -, -, -, h8⟩, -⟩ :=
    c5_batch_isolation memStore plainConverter abStore (lit "cancel")
      [⟨lit "a", lit "ns1"⟩] [⟨lit "b", []⟩] ⟨lit "missing", lit "ns1"⟩
      (Or.inl rfl) (by rfl) (by rfl) (by rfl)
  obtain ⟨hr, -⟩ := h8 (lit "scheduledscalings.scaling.kubernetes.io missing not found") (by rfl)
  rw [h1, h2, hr]
  rfl

/-! ## C6: manual transitions on a cancelled directive -/

/-- C6, counterexample. The directive `done` of `ns1` has phase `"Cancelled"`,
and a cancel request on it is accepted: the handler answers 200 and issues a
status patch, a write. -/
theorem c6_cancel_on_cancelled_writes :
    (statusFromUnstructured (jget doneObj (lit "status"))).toOption.map (fun st => st.Phase) =
      some (lit "Cancelled") ∧
    (cancelOrRevertScheduledScaling memStore plainConverter doneStore (lit "done") (lit "ns1")
        (lit "cancel")).response.code = 200 ∧
    (cancelOrRevertScheduledScaling memStore plainConverter doneStore (lit "done") (lit "ns1")
        (lit "cancel")).calls =
      [.get (lit "ns1") (lit "done"),
       .patch (statusPath (lit "ns1") (lit "done")) (statusPatch (lit "cancel") doneObj)] ∧
    ((cancelOrRevertScheduledScaling memStore plainConverter doneStore (lit "done") (lit "ns1")
        (lit "cancel")).calls.any StoreCall.isWrite) = true ∧
    ((batchStep memStore plainConverter (lit "cancel") ⟨[], [], [], doneStore⟩
        ⟨lit "done", lit "ns1"⟩).calls.any StoreCall.isWrite) = true ∧
    (batchStep memStore plainConverter (lit "cancel") ⟨[], [], [], doneStore⟩
        ⟨lit "done", lit "ns1"⟩).errors = [] :=
  ⟨by rfl, by rfl, by rfl, by rfl, by rfl, by rfl⟩

/-- C6, amended. For every directive that is fetched, converts and has phase
`"Cancelled"`, a revert request is refused and writes nothing, in the
single-item handler (400, the read only, state unchanged) and in the batch
loop (an error recorded, the read only, state unchanged); a cancel request is
still accepted: the single-item handler sends a status patch whose phase is
`"Cancelled"` and does not answer 400. -/
theorem c6_cancelled_refuses_revert {σ R : Type} (store : Store σ) (conv : Converter R) (s : σ)
    (name ns : GoString) (obj : JMap) (ss : ScheduledScaling R)
    (hget : store.get s ns name = .ok obj)
    (hconv : fromUnstructured conv obj = .ok ss)
    (hphase : ss.Status.Phase = lit "Cancelled") :
    cancelOrRevertScheduledScaling store conv s name ns (lit "revert") =
      ⟨⟨400, .text (lit "ScheduledScaling is not active, cannot revert")⟩, [.get ns name], s⟩ ∧
    (∀ (st : BatchState σ) (item : BatchItem),
      st.state = s → itemNamespace item = ns → item.Name = name →
      batchStep store conv (lit "revert") st item =
        { results := st.results,
          errors := st.errors ++ [itemError ns name (lit "not active, cannot revert")],
          calls := st.calls ++ [.get ns name],
          state := s }) ∧
    (cancelOrRevertScheduledScaling store conv s name ns (lit "cancel")).calls =
        [.get ns name, .patch (statusPath ns name) (statusPatch (lit "cancel") obj)] ∧
    jget (statusPatchInner (lit "cancel") obj) (lit "phase") = some (.str (lit "Cancelled")) ∧
    (cancelOrRevertScheduledScaling store conv s name ns (lit "cancel")).response.code ≠ 400 := by
  have hne : ss.Status.Phase ≠ lit "Active" := by
    rw [hphase]
    decide
  have hguard : ¬ (lit "cancel" = lit "revert" ∧ ss.Status.Phase ≠ lit "Active") :=
    fun hc => absurd hc.1 (by decide)
  obtain ⟨h1, _, h3, _⟩ :=
    accepted_single store conv s name ns (lit "cancel") obj ss hget hconv hguard
  refine ⟨revert_refused_single store conv s name ns obj ss hget hconv hne, ?_, h1,
    jget_statusPatchInner_phase _ _, h3⟩
  intro st item hs hns hname
  subst hs hns hname
  exact revert_refused_batch store conv st item obj ss hget hconv hne

/-- Witness of the amended C6 on the directive `done` of `ns1`. -/
theorem c6_cancelled_refuses_revert_witness :
    cancelOrRevertScheduledScaling memStore plainConverter doneStore (lit "done") (lit "ns1")
        (lit "revert") =
      ⟨⟨400, .text (lit "ScheduledScaling is not active, cannot revert")⟩,
        [.get (lit "ns1") (lit "done")], doneStore⟩ :=
  (c6_cancelled_refuses_revert memStore plainConverter doneStore (lit "done") (lit "ns1") doneObj
    ⟨doneObj.filter (fun e => e.1 ≠ lit "status"),
      ⟨lit "Cancelled", [], [], none, none, lit "Cancelled manually"⟩⟩
    (by rfl) (by rfl) rfl).1

/-! ## C7: what the error messages say about the resource -/

/-- C7, counterexample. The revert of the directive `idle` of `ns1`, which is
`Pending`, is refused by the single-item handler with a message that contains
neither the name nor the namespace of the directive. -/
theorem c7_single_revert_message_lacks_key :
    (cancelOrRevertScheduledScaling memStore plainConverter idleStore (lit "idle") (lit "ns1")
        (lit "revert")).response =
      ⟨400, .text (lit "ScheduledScaling is not active, cannot revert")⟩ ∧
    ¬ (lit "idle" <:+: lit "ScheduledScaling is not active, cannot revert") ∧
    ¬ (lit "ns1" <:+: lit "ScheduledScaling is not active, cannot revert") :=
  ⟨by rfl, by decide, by decide⟩

/-- C7, amended. In the batch loop the error recorded for a failing item is
`"{namespace}/{name}: {reason}"`, the namespace being `"default"` when the item
has none, so it contains the namespace and the name of the item.  In the
single-item handler the message is a fixed text, followed by the error text of
the store or of the converter when there is one: "Error getting
scheduledscaling: " for a failed read, "Error converting scheduledscaling: "
for a failed conversion, "ScheduledScaling is not active, cannot revert" for a
refused revert, "Error patching status: " for a failed patch, "Error getting
raw response: " when the raw response cannot be read and "Error parsing
response: " when it cannot be decoded; the handler has no other answer than
these six and the 200 with the patched document. -/
theorem c7_error_messages {σ R : Type} (store : Store σ) (conv : Converter R) (s : σ)
    (action : GoString) (items : List BatchItem) (name ns : GoString) :
    (∀ p ∈ items.zip (perItem store conv action s items), ∀ msg ∈ p.2.errors,
      (∃ reason, msg = itemNamespace p.1 ++ lit "/" ++ p.1.Name ++ lit ": " ++ reason) ∧
      itemNamespace p.1 <:+: msg ∧ p.1.Name <:+: msg) ∧
    (∀ item : BatchItem, itemNamespace item =
      if item.Namespace = [] then lit "default" else item.Namespace) ∧
    (batchLoop store conv action ⟨[], [], [], s⟩ items).errors =
      (perItem store conv action s items).flatMap (fun r => r.errors) ∧
    (∀ err, store.get s ns name = .error err →
      (cancelOrRevertScheduledScaling store conv s name ns action).response =
        ⟨404, .text (lit "Error getting scheduledscaling: " ++ err)⟩) ∧
    (∀ obj err, store.get s ns name = .ok obj → fromUnstructured conv obj = .error err →
      (cancelOrRevertScheduledScaling store conv s name ns action).response =
        ⟨500, .text (lit "Error converting scheduledscaling: " ++ err)⟩) ∧
    (∀ obj ss, store.get s ns name = .ok obj → fromUnstructured conv obj = .ok ss →
      ss.Status.Phase ≠ lit "Active" →
      (cancelOrRevertScheduledScaling store conv s name ns (lit "revert")).response =
        ⟨400, .text (lit "ScheduledScaling is not active, cannot revert")⟩) ∧
    (∀ obj ss err s', store.get s ns name = .ok obj → fromUnstructured conv obj = .ok ss →
      ¬ (action = lit "revert" ∧ ss.Status.Phase ≠ lit "Active") →
      store.patch s (statusPath ns name) (statusPatch action obj) = (.failed err, s') →
      (cancelOrRevertScheduledScaling store conv s name ns action).response =
        ⟨500, .text (lit "Error patching status: " ++ err)⟩) ∧
    (∀ obj ss err s', store.get s ns name = .ok obj → fromUnstructured conv obj = .ok ss →
      ¬ (action = lit "revert" ∧ ss.Status.Phase ≠ lit "Active") →
      store.patch s (statusPath ns name) (statusPatch action obj) = (.rawFailed err, s') →
      (cancelOrRevertScheduledScaling store conv s name ns action).response =
        ⟨500, .text (lit "Error getting raw response: " ++ err)⟩) ∧
    (∀ obj ss err s', store.get s ns name = .ok obj → fromUnstructured conv obj = .ok ss →
      ¬ (action = lit "revert" ∧ ss.Status.Phase ≠ lit "Active") →
      store.patch s (statusPath ns name) (statusPatch action obj) = (.unparsable err, s') →
      (cancelOrRevertScheduledScaling store conv s name ns action).response =
        ⟨500, .text (lit "Error parsing response: " ++ err)⟩) ∧
    ((∃ updatedObj, (cancelOrRevertScheduledScaling store conv s name ns action).response =
        ⟨200, .json (.obj updatedObj)⟩) ∨
      (∃ err, (cancelOrRevertScheduledScaling store conv s name ns action).response =
        ⟨404, .text (lit "Error getting scheduledscaling: " ++ err)⟩) ∨
      (∃ err, (cancelOrRevertScheduledScaling store conv s name ns action).response =
        ⟨500, .text (lit "Error converting scheduledscaling: " ++ err)⟩) ∨
      (cancelOrRevertScheduledScaling store conv s name ns action).response =
        ⟨400, .text (lit "ScheduledScaling is not active, cannot revert")⟩ ∨
      (∃ err, (cancelOrRevertScheduledScaling store conv s name ns action).response =
        ⟨500, .text (lit "Error patching status: " ++ err)⟩) ∨
      (∃ err, (cancelOrRevertScheduledScaling store conv s name ns action).response =
        ⟨500, .text (lit "Error getting raw response: " ++ err)⟩) ∨
      (∃ err, (cancelOrRevertScheduledScaling store conv s name ns action).response =
        ⟨500, .text (lit "Error parsing response: " ++ err)⟩)) := by
  refine ⟨?_, fun _ => rfl, ?_, ?_, ?_, ?_, ?_, ?_, ?_, ?_⟩
  · intro p hp msg hmsg
    rcases perItem_one store conv action s items p hp with ⟨doc, _, he⟩ | ⟨reason, _, he⟩
    · rw [he] at hmsg
      exact absurd hmsg (List.not_mem_nil _)
    · rw [he, List.mem_singleton] at hmsg
      subst hmsg
      refine ⟨⟨reason, rfl⟩, ?_, ?_⟩
      · exact ⟨[], lit "/" ++ p.1.Name ++ lit ": " ++ reason, by simp [itemError]⟩
      · exact ⟨itemNamespace p.1 ++ lit "/", lit ": " ++ reason, by simp [itemError]⟩
  · have h := (batchLoop_eq_perItem store conv action ⟨[], [], [], s⟩ items).2.1
    simpa using h
  · intro err h
    simp [cancelOrRevertScheduledScaling, h]
  · intro obj err h1 h2
    simp [cancelOrRevertScheduledScaling, h1, h2]
  · intro obj ss h1 h2 h3
    rw [revert_refused_single store conv s name ns obj ss h1 h2 h3]
  · intro obj ss err s' h1 h2 h3 h4
    simp only [cancelOrRevertScheduledScaling, h1, h2, if_neg h3, h4]
  · intro obj ss err s' h1 h2 h3 h4
    simp only [cancelOrRevertScheduledScaling, h1, h2, if_neg h3, h4]
  · intro obj ss err s' h1 h2 h3 h4
    simp only [cancelOrRevertScheduledScaling, h1, h2, if_neg h3, h4]
  · unfold cancelOrRevertScheduledScaling
    rcases h1 : store.get s ns name with e | obj
    · exact Or.inr (Or.inl ⟨e, rfl⟩)
    dsimp only
    rcases h2 : fromUnstructured conv obj with e | ss
    · exact Or.inr (Or.inr (Or.inl ⟨e, rfl⟩))
    dsimp only
    split
    · exact Or.inr (Or.inr (Or.inr (Or.inl rfl)))
    · rcases h3 : store.patch s (statusPath ns name) (statusPatch action obj) with ⟨out, s'⟩
      cases out with
      | failed e => exact Or.inr (Or.inr (Or.inr (Or.inr (Or.inl ⟨e, rfl⟩))))
      | rawFailed e => exact Or.inr (Or.inr (Or.inr (Or.inr (Or.inr (Or.inl ⟨e, rfl⟩)))))
      | unparsable e => exact Or.inr (Or.inr (Or.inr (Or.inr (Or.inr (Or.inr ⟨e, rfl⟩)))))
      | ok updatedObj => exact Or.inl ⟨updatedObj, rfl⟩

/-- Witness of the amended C7: a batch revert of `idle` of `ns1`, which is
`Pending`, and of `missing`, which has no namespace and is not in the store,
records the two messages `ns1/idle: ...` and `default/missing: ...`. -/
theorem c7_error_messages_witness :
    (batchLoop memStore plainConverter (lit "revert") ⟨[], [], [], idleStore⟩
        [⟨lit "idle", lit "ns1"⟩, ⟨lit "missing", []⟩]).errors =
      [lit "ns1/idle: not active, cannot revert",
       lit "default/missing: scheduledscalings.scaling.kubernetes.io missing not found"] :=
  (c7_error_messages memStore plainConverter idleStore (lit "revert")
    [⟨lit "idle", lit "ns1"⟩, ⟨lit "missing", []⟩] (lit "idle") (lit "ns1")).2.2.1.trans (by rfl)

/-! ## C8: an action that is neither cancel nor revert -/

/-- C8. For every action string other than `"cancel"` and `"revert"`, a PATCH
request handled by `handleScheduledScaling` is answered 400 without any store
call and with the store state unchanged, and it is the text "Invalid action.
Use 'cancel' or 'revert'" whenever the path names a resource; a POST handled by
`handleBatchCancel` is answered 400 with that text, without any store call and
with the store state unchanged, for every list of items. -/
theorem c8_invalid_action_no_store_access {σ R : Type} (store : Store σ) (conv : Converter R)
    (s : σ) (req : Request R) (action : GoString) (items : List BatchItem)
    (hmethod : req.Method = lit "PATCH")
    (hbody : req.Action = .ok action)
    (hc : action ≠ lit "cancel") (hr : action ≠ lit "revert") :
    (handleScheduledScaling store conv s req).calls = [] ∧
    (handleScheduledScaling store conv s req).state = s ∧
    (handleScheduledScaling store conv s req).response.code = 400 ∧
    (splitPath (req.Path.drop (lit "/api/v1/scheduledscalings/").length) ≠ [] →
      handleScheduledScaling store conv s req =
        ⟨⟨400, .text (lit "Invalid action. Use 'cancel' or 'revert'")⟩, [], s⟩) ∧
    handleBatchCancel store conv s (lit "POST") (.ok ⟨items, action⟩) =
      ⟨⟨400, .text (lit "Invalid action. Use 'cancel' or 'revert'")⟩, [], s⟩ := by
  have h1 : lit "PATCH" ≠ lit "OPTIONS" := by decide
  have h2 : lit "PATCH" ≠ lit "GET" := by decide
  have h3 : lit "PATCH" ≠ lit "PUT" := by decide
  have h4 : lit "POST" ≠ lit "OPTIONS" := by decide
  have hd : ∀ name ns, dispatch store conv s req name ns =
      ⟨⟨400, .text (lit "Invalid action. Use 'cancel' or 'revert'")⟩, [], s⟩ := by
    intro name ns
    simp [dispatch, hmethod, h2, h3, hbody, hc, hr]
  have hb : handleBatchCancel store conv s (lit "POST") (.ok ⟨items, action⟩) =
      ⟨⟨400, .text (lit "Invalid action. Use 'cancel' or 'revert'")⟩, [], s⟩ := by
    simp [handleBatchCancel, h4, hc, hr]
  unfold handleScheduledScaling
  rw [hmethod, if_neg h1]
  cases hp : splitPath (req.Path.drop (lit "/api/v1/scheduledscalings/").length) with
  | nil => exact ⟨rfl, rfl, rfl, fun h => absurd rfl h, hb⟩
  | cons name more =>
    dsimp only
    rw [hd]
    exact ⟨rfl, rfl, rfl, fun _ => rfl, hb⟩

/-- Witness of C8: the action `"Cancel"`, which differs from `"cancel"` in
case only, on the directive `demo` of `ns1`. -/
theorem c8_invalid_action_no_store_access_witness :
    handleScheduledScaling memStore plainConverter demoStore
        ⟨lit "PATCH", lit "/api/v1/scheduledscalings/demo/ns1", [], .ok (lit "Cancel"),
          .error []⟩ =
      ⟨⟨400, .text (lit "Invalid action. Use 'cancel' or 'revert'")⟩, [], demoStore⟩ ∧
    handleBatchCancel memStore plainConverter demoStore (lit "POST")
        (.ok ⟨[⟨lit "demo", lit "ns1"⟩], lit "Cancel"⟩) =
      ⟨⟨400, .text (lit "Invalid action. Use 'cancel' or 'revert'")⟩, [], demoStore⟩ :=
  have h := c8_invalid_action_no_store_access memStore plainConverter demoStore
    ⟨lit "PATCH", lit "/api/v1/scheduledscalings/demo/ns1", [], .ok (lit "Cancel"), .error []⟩
    (lit "Cancel") [⟨lit "demo", lit "ns1"⟩] rfl rfl (by decide) (by decide)
  ⟨h.2.2.2.1 (by decide), h.2.2.2.2⟩

/-! ## C9: the aggregate of a batch -/

/-- C9. For every store, every list of items and a valid action, the batch
answers 200 with a document whose `results` are the updated documents of the
items that succeed, in input order, and whose recorded errors are those of the
items that fail, in input order; every item yields exactly one of the two,
the updated document or the error `"{namespace}/{name}: {reason}"`;
`success` is the number of results, `errors` the number of recorded errors,
their sum is the number of items, and the key `errorMessages` is present
exactly when there is an error, holding the recorded errors. -/
theorem c9_batch_aggregate {σ R : Type} (store : Store σ) (conv : Converter R)
    (s : σ) (items : List BatchItem) (action : GoString)
    (hact : action = lit "cancel" ∨ action = lit "revert") :
    (handleBatchCancel store conv s (lit "POST") (.ok ⟨items, action⟩)).response =
      ⟨200, .json (.obj (batchResponse
        ((perItem store conv action s items).flatMap (fun r => r.results))
        ((perItem store conv action s items).flatMap (fun r => r.errors))))⟩ ∧
    (perItem store conv action s items).length = items.length ∧
    (∀ p ∈ items.zip (perItem store conv action s items),
      (∃ doc, p.2.results = [doc] ∧ p.2.errors = []) ∨
      (∃ reason, p.2.results = [] ∧
        p.2.errors = [itemError (itemNamespace p.1) p.1.Name reason])) ∧
    jget (batchResponse
        ((perItem store conv action s items).flatMap (fun r => r.results))
        ((perItem store conv action s items).flatMap (fun r => r.errors))) (lit "success") =
      some (.int (((perItem store conv action s items).flatMap
        (fun r => r.results)).length)) ∧
    jget (batchResponse
        ((perItem store conv action s items).flatMap (fun r => r.results))
        ((perItem store conv action s items).flatMap (fun r => r.errors))) (lit "errors") =
      some (.int (((perItem store conv action s items).flatMap
        (fun r => r.errors)).length)) ∧
    jget (batchResponse
        ((perItem store conv action s items).flatMap (fun r => r.results))
        ((perItem store conv action s items).flatMap (fun r => r.errors))) (lit "results") =
      some (.arr (((perItem store conv action s items).flatMap
        (fun r => r.results)).map Json.obj)) ∧
    ((perItem store conv action s items).flatMap (fun r => r.results)).length +
        ((perItem store conv action s items).flatMap (fun r => r.errors)).length =
      items.length ∧
    ((jget (batchResponse
        ((perItem store conv action s items).flatMap (fun r => r.results))
        ((perItem store conv action s items).flatMap (fun r => r.errors)))
        (lit "errorMessages")).isSome = true ↔
      0 < ((perItem store conv action s items).flatMap (fun r => r.errors)).length) ∧
    (0 < ((perItem store conv action s items).flatMap (fun r => r.errors)).length →
      jget (batchResponse
        ((perItem store conv action s items).flatMap (fun r => r.results))
        ((perItem store conv action s items).flatMap (fun r => r.errors)))
        (lit "errorMessages") =
      some (.arr (((perItem store conv action s items).flatMap
        (fun r => r.errors)).map Json.str))) := by
  obtain ⟨j1, j2, j3, j4⟩ := jget_batchResponse
    ((perItem store conv action s items).flatMap (fun r => r.results))
    ((perItem store conv action s items).flatMap (fun r => r.errors))
  obtain ⟨h1, h2, _⟩ := batchLoop_eq_perItem store conv action ⟨[], [], [], s⟩ items
  have hcount := batchLoop_count store conv action ⟨[], [], [], s⟩ items
  simp only [List.nil_append] at h1 h2
  rw [h1, h2] at hcount
  refine ⟨?_, perItem_length store conv action s items,
    perItem_one store conv action s items, j1, j2, j3, ?_, ?_, ?_⟩
  · rw [handleBatchCancel_valid store conv s items action hact]
  · simpa using hcount
  · rw [j4]
    by_cases h : 0 < ((perItem store conv action s items).flatMap (fun r => r.errors)).length
    · simp [h]
    · simp [h]
  · intro h
    rw [j4, if_pos h]

/-- Witness of C9: the batch `[a, missing]` of namespace `ns1` with action
`cancel` reports `success = 1`, `errors = 1` and the message of `missing`. -/
theorem c9_batch_aggregate_witness :
    (handleBatchCancel memStore plainConverter abStore (lit "POST")
        (.ok ⟨[⟨lit "a", lit "ns1"⟩, ⟨lit "missing", lit "ns1"⟩], lit "cancel"⟩)).response =
      ⟨200, .json (.obj
        [(lit "success", .int 1), (lit "errors", .int 1),
         (lit "results", .arr [.obj aCancelled]),
         (lit "errorMessages", .arr [.str (lit
           "ns1/missing: scheduledscalings.scaling.kubernetes.io missing not found")])])⟩ :=
  (c9_batch_aggregate memStore plainConverter abStore
    [⟨lit "a", lit "ns1"⟩, ⟨lit "missing", lit "ns1"⟩] (lit "cancel") (Or.inl rfl)).1.trans
    (by rfl)

/-! ## C10: splitPath -/

/-- C10, counterexample. The path of one byte `0xFF`, which is not valid
UTF-8, is split into the single part `EF BF BD`, the encoding of U+FFFD: the
concatenation of the parts is not the input with its slashes removed, and the
parts are not the pieces of the input split at the slashes. -/
theorem c10_invalid_utf8_replaced :
    splitPath [0xFF] = [[0xEF, 0xBF, 0xBD]] ∧
    (splitPath [0xFF]).flatten ≠ [0xFF].filter (fun b => b ≠ slash) ∧
    splitPath [0xFF] ≠ slashPieces [0xFF] := by
  decide

/-- C10, amended. For every input, `splitPath` returns the maximal non-empty
runs of non-slash runes of the input as `range` decodes it, each run encoded
again, in order; no part is empty, no part contains a slash, the result is
empty exactly when the input has no byte other than a slash, and the
concatenation of the parts is the encoding of the decoded runes other than
the slash.  When the input is valid UTF-8 the parts are the non-empty pieces of
the input split at the slashes and their concatenation is the input with every
slash removed.  For a method other than OPTIONS, `handleScheduledScaling`
answers "Invalid path" exactly when the path after the route has no byte other
than a slash, and otherwise dispatches with the first part as the name. -/
theorem c10_splitPath {σ R : Type} (store : Store σ) (conv : Converter R) (s : σ)
    (req : Request R) (path : GoString) :
    splitPath path = (slashPieces (runes path)).map encodeRunes ∧
    (∀ p ∈ splitPath path, p ≠ [] ∧ slash ∉ p) ∧
    (splitPath path = [] ↔ ∀ b ∈ path, b = slash) ∧
    (splitPath path).flatten = encodeRunes ((runes path).filter (fun r => r ≠ slash)) ∧
    (ValidUTF8 path →
      splitPath path = slashPieces path ∧
      (splitPath path).flatten = path.filter (fun b => b ≠ slash)) ∧
    (req.Method ≠ lit "OPTIONS" →
      ((handleScheduledScaling store conv s req).response = ⟨400, .text (lit "Invalid path")⟩ ↔
        ∀ b ∈ req.Path.drop (lit "/api/v1/scheduledscalings/").length, b = slash) ∧
      (∀ name more,
        splitPath (req.Path.drop (lit "/api/v1/scheduledscalings/").length) = name :: more →
        handleScheduledScaling store conv s req =
          dispatch store conv s req name
            (requestNamespace req.QueryNamespace (name :: more)))) := by
  have hnil : ∀ q : GoString, splitPath q = [] ↔ ∀ b ∈ q, b = slash := by
    intro q
    rw [splitPath_eq_splitRuns, splitRuns_eq_nil]
    exact ⟨fun h => (runes_all_slash q).1 h.2, fun h => ⟨rfl, (runes_all_slash q).2 h⟩⟩
  refine ⟨splitPath_eq_pieces path, ?_, hnil path, ?_, splitPath_valid path, ?_⟩
  · rw [splitPath_eq_splitRuns]
    exact splitRuns_parts [] (runes path) (by simp)
  · rw [splitPath_eq_splitRuns, splitRuns_join]
    simp
  · intro hm
    constructor
    · rw [← hnil]
      unfold handleScheduledScaling
      rw [if_neg hm]
      cases hp : splitPath (req.Path.drop (lit "/api/v1/scheduledscalings/").length) with
      | nil => simp
      | cons name more =>
        dsimp only
        constructor
        · intro h
          exact absurd h (dispatch_ne_invalid_path store conv s req name _)
        · intro h
          exact absurd h (by simp)
    · intro name more hp
      unfold handleScheduledScaling
      rw [if_neg hm, hp]

/-- Witness of C10: the path `/api/v1/scheduledscalings//demo//ns1/` is valid
UTF-8; the part after the route splits into `demo` and `ns1`, and a GET on it
reads the directive `demo` of the namespace `ns1`. -/
theorem c10_splitPath_witness :
    splitPath (lit "/demo//ns1/") = [lit "demo", lit "ns1"] ∧
    (splitPath (lit "/demo//ns1/")).flatten = lit "demons1" ∧
    handleScheduledScaling memStore plainConverter demoStore
        ⟨lit "GET", lit "/api/v1/scheduledscalings//demo//ns1/", [], .error [], .error []⟩ =
      ⟨⟨200, .json (.obj demoObj)⟩, [.get (lit "ns1") (lit "demo")], demoStore⟩ :=
  have h := c10_splitPath memStore plainConverter demoStore
    ⟨lit "GET", lit "/api/v1/scheduledscalings//demo//ns1/", [], .error [], .error []⟩
    (lit "/demo//ns1/")
  have hv := h.2.2.2.2.1
    ⟨[47, 100, 101, 109, 111, 47, 47, 110, 115, 49, 47], by simp [IsScalar], by rfl⟩
  ⟨hv.1.trans (by rfl), hv.2.trans (by rfl),
    (h.2.2.2.2.2 (by decide)).2 (lit "demo") [lit "ns1"] (by rfl) |>.trans (by rfl)⟩
end ScalingApi
